import Mathlib

/-!
Verification development for the HPU paged-attention backend
(`src/vllm/attention/backends/hpu_attn.py`) and the split output projection
of the Llama attention layer (`src/vllm/model_executor/models/llama.py`).

The decode-path normalization (`pa`, `pipelined_const_pa`, `flat_pa`) is
embedded over exact rational arithmetic; attention scores carry an explicit
minus-infinity element (`Option ℚ`, `none` standing for the `-inf` bias used
to mask invalid block slots), and the finite exponential is an abstract
parameter `E : ℚ → ℚ` standing for `torch.exp`.

The `block2batch` / `batch2block` reduction pair lives in the external
`vllm_hpu_extension` package and is modelled from the spec (§4.2): a one-hot
block-to-sequence assignment, used as a segment sum in one direction and as a
broadcast in the other.
-/

namespace HpuAttn

/-! ### block2batch / batch2block -/

variable {nb bs H blk hd nc : ℕ} {α : Type*}

/-- Modelled from the spec: `ops.batch2block` from `vllm_hpu_extension`
(external to the source tree).  Broadcasts a per-sequence tensor out to every
block of that sequence through the one-hot `block_mapping`, given here in
index form (`bm b` is the sequence owning block `b`; per the spec invariant
every block of `block_list` belongs to exactly one active sequence). -/
def batch2block (bm : Fin nb → Fin bs) (x : Fin bs → α) : Fin nb → α :=
  fun b => x (bm b)

/-- Modelled from the spec: `ops.block2batch` from `vllm_hpu_extension`
(external to the source tree).  Sums per-block values into one value per
sequence: the segment sum with the transposed one-hot assignment matrix. -/
def block2batch [AddCommMonoid α] (bm : Fin nb → Fin bs) (y : Fin nb → α) :
    Fin bs → α :=
  fun s => ∑ b, if bm b = s then y b else 0

/-! ### Extended scores -/

/-- An attention score extended with a minus-infinity element: `none` is the
`-inf`-equivalent bias value used to mask invalid block slots. -/
abbrev Score : Type := Option ℚ

/-- Exponentiation of an extended score: `exp(-inf) = 0`; on finite scores it
is the abstract exponential `E` (standing for the external `torch.exp`). -/
def xexp (E : ℚ → ℚ) : Score → ℚ
  | none => 0
  | some x => E x

/-- `attn.sub_(const_val)` on an extended score (`-inf` stays `-inf`). -/
def xsub (a : Score) (c : ℚ) : Score := a.map (fun x => x - c)

/-- `attn + block_bias`: finite query·key score plus a possibly `-inf` bias. -/
def xadd (a : ℚ) (b : Score) : Score := b.map (fun x => a + x)

/-! ### The decode normalization (hpu_attn.py lines 60-111)

`const_val` and `eps_value` are the module-level environment knobs
`VLLM_SOFTMAX_CONST_VAL` and `VLLM_SOFTMAX_EPS_VALUE`; they are passed here
as parameters `constVal` and `eps`. -/

/-- The exponentiated constant-shifted scores: `attn.sub_(const_val)` followed
by `attn = attn.exp()` (hpu_attn.py lines 79/84 and 99/100). -/
def paExp (E : ℚ → ℚ) (constVal : ℚ)
    (attn : Fin nb → Fin H → Fin blk → Score) :
    Fin nb → Fin H → Fin blk → ℚ :=
  fun b h t => xexp E (xsub (attn b h t) constVal)

/-- `sums = attn.sum(dim=-1).unsqueeze(-1)` (lines 85 and 102): the block-local
sum of exponentials, per block and head. -/
def paSums (E : ℚ → ℚ) (constVal : ℚ)
    (attn : Fin nb → Fin H → Fin blk → Score) :
    Fin nb → Fin H → ℚ :=
  fun b h => ∑ t, paExp E constVal attn b h t

/-- The denominator of the decode normalization (lines 86-91 and 103-108):
the per-block sums are reduced per sequence with `block2batch`, broadcast back
with `batch2block`, shifted by the epsilon floor (`group_sums.add_(eps_value)`)
and the result is `torch.maximum(block_sum, group_sums)`. -/
def paGroupSums (bm : Fin nb → Fin bs) (sums : Fin nb → Fin H → ℚ) (eps : ℚ) :
    Fin nb → Fin H → ℚ :=
  fun b h => max (sums b h) (batch2block bm (block2batch bm sums) b h + eps)

/-- `pa` (hpu_attn.py lines 77-94): constant-shift normalization dividing the
exponentials by the denominator (`attn.div_(group_sums)`) before the
attention×value matmul.  `batch_size`, `block_groups` and `block_scales` are
accepted and unused, as in the source. -/
def pa (constVal eps : ℚ) (E : ℚ → ℚ)
    (attn : Fin nb → Fin H → Fin blk → Score)
    (value : Fin nb → Fin H → Fin blk → Fin hd → ℚ)
    (batch_size : ℕ) (block_groups : Fin nb → ℕ)
    (bm : Fin nb → Fin bs) (block_scales : Fin nb → ℚ) :
    Fin nb → Fin H → Fin hd → ℚ :=
  fun b h d => ∑ t,
    (paExp E constVal attn b h t
        / paGroupSums bm (paSums E constVal attn) eps b h)
      * value b h t d

/-- `pipelined_const_pa` (hpu_attn.py lines 96-111): same normalization, but
the division by the denominator happens after the attention×value matmul
(`attn = matmul_av_op(attn, value); attn.div_(group_sums)`). -/
def pipelined_const_pa (constVal eps : ℚ) (E : ℚ → ℚ)
    (attn : Fin nb → Fin H → Fin blk → Score)
    (value : Fin nb → Fin H → Fin blk → Fin hd → ℚ)
    (block_groups : Fin nb → ℕ)
    (bm : Fin nb → Fin bs) (block_scales : Fin nb → ℚ) :
    Fin nb → Fin H → Fin hd → ℚ :=
  fun b h d =>
    (∑ t, paExp E constVal attn b h t * value b h t d)
      / paGroupSums bm (paSums E constVal attn) eps b h

/-- Modelled from the spec: `ops.pipelined_pa` from `vllm_hpu_extension`
(external to the source tree), the default branch of `flat_pa` — the plain
policy: exponentials without constant shift, the same epsilon-guarded
max denominator, division after the value matmul. -/
def pipelined_pa (eps : ℚ) (E : ℚ → ℚ)
    (attn : Fin nb → Fin H → Fin blk → Score)
    (value : Fin nb → Fin H → Fin blk → Fin hd → ℚ)
    (block_groups : Fin nb → ℕ)
    (bm : Fin nb → Fin bs) (block_scales : Fin nb → ℚ) (batch_size : ℕ) :
    Fin nb → Fin H → Fin hd → ℚ :=
  fun b h d =>
    (∑ t, xexp E (attn b h t) * value b h t d)
      / paGroupSums bm (fun b h => ∑ t, xexp E (attn b h t)) eps b h

/-- `flat_pa` (hpu_attn.py lines 113-151), content model of the decode path:
the query is broadcast into block layout (`batch2block(scale * query, ...)`),
key/value blocks are gathered from the caches by `block_list`, raw scores are
the query·key contraction plus `block_bias`, one of the three normalization
branches runs (selected by the `const_pa` / `const_norm` flags exactly as in
lines 139-146), and the result is reduced back to batch layout with
`block2batch`.  Heads are indexed by `Fin H`; the grouped-query branch of the
source only reshapes the head axis (`unflatten`/`transpose`), a bijective
reindexing under which the per-head computation below is unchanged, and the
bias is broadcast over heads in both branches. -/
def flat_pa (const_pa const_norm : Bool) (constVal eps scale : ℚ) (E : ℚ → ℚ)
    (query : Fin bs → Fin H → Fin hd → ℚ)
    (key_cache value_cache : Fin nc → Fin blk → Fin H → Fin hd → ℚ)
    (block_list : Fin nb → Fin nc)
    (block_mapping : Fin nb → Fin bs)
    (block_bias : Fin nb → Fin blk → Score)
    (block_scales : Fin nb → ℚ) (block_groups : Fin nb → ℕ)
    (batch_size : ℕ) :
    Fin bs → Fin H → Fin hd → ℚ :=
  let q : Fin nb → Fin H → Fin hd → ℚ :=
    batch2block block_mapping (fun s h d => scale * query s h d)
  let key : Fin nb → Fin H → Fin blk → Fin hd → ℚ :=
    fun b h t d => key_cache (block_list b) t h d
  let value : Fin nb → Fin H → Fin blk → Fin hd → ℚ :=
    fun b h t d => value_cache (block_list b) t h d
  let attn : Fin nb → Fin H → Fin blk → Score :=
    fun b h t => xadd (∑ d, q b h d * key b h t d) (block_bias b t)
  let normed : Fin nb → Fin H → Fin hd → ℚ :=
    if const_pa then
      pipelined_const_pa constVal eps E attn value block_groups
        block_mapping block_scales
    else if const_norm then
      pa constVal eps E attn value batch_size block_groups
        block_mapping block_scales
    else
      pipelined_pa eps E attn value block_groups block_mapping
        block_scales batch_size
  block2batch block_mapping normed

/-- Common shape of the three normalization branches of `flat_pa` (proof
helper): exponentiate the extended scores with `f`, build the epsilon-guarded
max denominator from the block-local sums, multiply by the values and divide.
`pipelined_const_pa` is `gpipe` with the constant-shifted exponential and
`pipelined_pa` is `gpipe` with the plain one (both by `rfl`); `pa` agrees by
exactness of pushing the division through the sum. -/
def gpipe (f : Score → ℚ)
    (attn : Fin nb → Fin H → Fin blk → Score)
    (value : Fin nb → Fin H → Fin blk → Fin hd → ℚ)
    (bm : Fin nb → Fin bs) (eps : ℚ) :
    Fin nb → Fin H → Fin hd → ℚ :=
  fun b h d =>
    (∑ t, f (attn b h t) * value b h t d)
      / paGroupSums bm (fun b h => ∑ t, f (attn b h t)) eps b h

/-! ## Shape and dtype model of `HPUAttentionImpl.forward`

Tensors are modelled by descriptors (shape and dtype); every torch operation
used by `forward` and `flat_pa` becomes a function on descriptors returning
`Except`, following torch's shape rules and type promotion (promotion never
silently downcasts; external matmul/elementwise kernels are dtype-monotone). -/

inductive DType where
  | bf16 : DType
  | f32 : DType
deriving DecidableEq

/-- Type promotion on the two floating dtypes that occur. -/
def DType.promote : DType → DType → DType
  | .f32, _ => .f32
  | _, .f32 => .f32
  | .bf16, .bf16 => .bf16

/-- A tensor descriptor: shape and dtype. -/
structure TD where
  shape : List ℕ
  dtype : DType
deriving DecidableEq

inductive TErr where
  | shapeMismatch : TErr
  | rankMismatch : TErr
  | unboundLocal : TErr
  | assertFailed : TErr
  | typeMismatch : TErr
deriving DecidableEq

def numel (s : List ℕ) : ℕ := s.prod

/-- `torch.view` target-shape resolution: at most one `-1` (`none`), which is
inferred; the element count must match exactly. -/
def viewShape (n : ℕ) (dims : List (Option ℕ)) : Except TErr (List ℕ) :=
  let known := (dims.filterMap id).prod
  match dims.countP Option.isNone with
  | 0 => if known = n then .ok (dims.filterMap id) else .error .shapeMismatch
  | 1 =>
    if known ≠ 0 ∧ known ∣ n then
      .ok (dims.map (fun d => d.getD (n / known)))
    else .error .shapeMismatch
  | _ => .error .shapeMismatch

def TD.view (t : TD) (dims : List (Option ℕ)) : Except TErr TD :=
  match viewShape (numel t.shape) dims with
  | .ok s => .ok ⟨s, t.dtype⟩
  | .error e => .error e

def insertAt (s : List ℕ) (k v : ℕ) : List ℕ := s.take k ++ v :: s.drop k

def removeAt (s : List ℕ) (k : ℕ) : List ℕ := s.take k ++ s.drop (k + 1)

/-- `torch.Tensor.transpose(i, j)` (a view; descriptor-level dim swap). -/
def TD.transposeDims (t : TD) (i j : ℕ) : Except TErr TD :=
  match t.shape[i]?, t.shape[j]? with
  | some a, some b => .ok ⟨(t.shape.set i b).set j a, t.dtype⟩
  | _, _ => .error .rankMismatch

/-- `torch.Tensor.unflatten(d, dims)`. -/
def TD.unflattenAt (t : TD) (d : ℕ) (dims : List (Option ℕ)) :
    Except TErr TD :=
  match t.shape[d]? with
  | some n =>
    match viewShape n dims with
    | .ok sub => .ok ⟨t.shape.take d ++ sub ++ t.shape.drop (d + 1), t.dtype⟩
    | .error e => .error e
  | none => .error .rankMismatch

/-- `unsqueeze(-1)`. -/
def TD.unsqueezeLast (t : TD) : TD := ⟨t.shape ++ [1], t.dtype⟩

/-- `unsqueeze(-2)`. -/
def TD.unsqueezeSecondLast (t : TD) : Except TErr TD :=
  if 1 ≤ t.shape.length then
    .ok ⟨insertAt t.shape (t.shape.length - 1) 1, t.dtype⟩
  else .error .rankMismatch

/-- `unsqueeze(1)`. -/
def TD.unsqueezeDim1 (t : TD) : Except TErr TD :=
  if 1 ≤ t.shape.length then .ok ⟨insertAt t.shape 1 1, t.dtype⟩
  else .error .rankMismatch

/-- `squeeze(-2)`: removes the second-to-last dim when its size is 1. -/
def TD.squeezeSecondLast (t : TD) : Except TErr TD :=
  if 2 ≤ t.shape.length then
    if t.shape[t.shape.length - 2]? = some 1 then
      .ok ⟨removeAt t.shape (t.shape.length - 2), t.dtype⟩
    else .ok t
  else .error .rankMismatch

/-- `flatten(1, 2)`. -/
def TD.flatten12 (t : TD) : Except TErr TD :=
  match t.shape with
  | s0 :: s1 :: s2 :: rest => .ok ⟨s0 :: s1 * s2 :: rest, t.dtype⟩
  | _ => .error .rankMismatch

/-- `sum(dim=-1)`. -/
def TD.sumLastDim (t : TD) : Except TErr TD :=
  if t.shape.length = 0 then .error .rankMismatch
  else .ok ⟨t.shape.dropLast, t.dtype⟩

/-- Right-aligned shape broadcasting (on reversed shapes). -/
def bcastRev : List ℕ → List ℕ → Option (List ℕ)
  | [], ys => some ys
  | x :: xs, [] => some (x :: xs)
  | x :: xs, y :: ys =>
    match bcastRev xs ys with
    | none => none
    | some rest =>
      if x = y then some (x :: rest)
      else if x = 1 then some (y :: rest)
      else if y = 1 then some (x :: rest)
      else none

def bcast (a b : List ℕ) : Option (List ℕ) :=
  (bcastRev a.reverse b.reverse).map List.reverse

/-- Out-of-place elementwise binary op (`+`, `torch.maximum`): broadcast the
shapes, promote the dtypes. -/
def TD.binop (a b : TD) : Except TErr TD :=
  match bcast a.shape b.shape with
  | some s => .ok ⟨s, a.dtype.promote b.dtype⟩
  | none => .error .shapeMismatch

/-- In-place elementwise binary op (`add_`, `div_`): the broadcast result
must keep the left operand's shape, whose descriptor is kept. -/
def TD.binopInplace (a b : TD) : Except TErr TD :=
  match bcast a.shape b.shape with
  | some s => if s = a.shape then .ok a else .error .shapeMismatch
  | none => .error .shapeMismatch

/-- `torch.matmul` on rank ≥ 2 operands: the last dim of `a` contracts with
the second-to-last dim of `b`, batch dims broadcast, dtypes promote. -/
def matmulTD (a b : TD) : Except TErr TD :=
  match a.shape.reverse, b.shape.reverse with
  | k :: n :: ra, m :: k2 :: rb =>
    if k = k2 then
      match bcast ra.reverse rb.reverse with
      | some batch => .ok ⟨batch ++ [n, m], a.dtype.promote b.dtype⟩
      | none => .error .shapeMismatch
    else .error .shapeMismatch
  | _, _ => .error .rankMismatch

/-- Modelled from the spec: shape/dtype contract of the external
`ops.batch2block` — a matmul of the `[num_blocks, batch]` one-hot mapping
with the input flattened along its leading (batch) dim. -/
def batch2blockTD (t bm : TD) : Except TErr TD :=
  match bm.shape, t.shape with
  | [nblk, bsz], t0 :: rest =>
    if t0 = bsz then .ok ⟨nblk :: rest, bm.dtype.promote t.dtype⟩
    else .error .shapeMismatch
  | _, _ => .error .rankMismatch

/-- Modelled from the spec: shape/dtype contract of the external
`ops.block2batch` — the transposed mapping applied to a per-block tensor. -/
def block2batchTD (t bm : TD) : Except TErr TD :=
  match bm.shape, t.shape with
  | [nblk, bsz], t0 :: rest =>
    if t0 = nblk then .ok ⟨bsz :: rest, bm.dtype.promote t.dtype⟩
    else .error .shapeMismatch
  | _, _ => .error .rankMismatch

/-- Modelled from the spec (§4.1 `read`): gather whole cache blocks by
`block_list`; the cache is `[num_blocks, block_size, num_kv_heads,
head_size]`. -/
def fetchFromCacheTD (cache bl : TD) : Except TErr TD :=
  match cache.shape, bl.shape with
  | [_, bsz, kvh, hdim], [nbl] => .ok ⟨[nbl, bsz, kvh, hdim], cache.dtype⟩
  | _, _ => .error .rankMismatch

/-- `torch.Tensor.tile` with a rank-4 repeat vector (always a fresh copy). -/
def tile4TD (t : TD) (r0 r1 r2 r3 : ℕ) : Except TErr TD :=
  match t.shape with
  | [a, b, c, d] => .ok ⟨[a * r0, b * r1, c * r2, d * r3], t.dtype⟩
  | _ => .error .rankMismatch

/-- Shape/dtype of `_make_alibi_bias` (hpu_attn.py lines 544-573): the bias
buffer is `[1, num_heads, seq_len, seq_len]` (after the padded-empty slice),
unflattened over kv-head groups when `num_heads ≠ num_kv_heads`. -/
def makeAlibiBiasTD (num_heads num_kv_heads : ℕ) (dt : DType) (seq_len : ℕ) :
    Except TErr TD :=
  if num_heads = num_kv_heads then .ok ⟨[1, num_heads, seq_len, seq_len], dt⟩
  else if num_kv_heads ≠ 0 ∧ num_kv_heads ∣ num_heads then
    .ok ⟨[1, num_kv_heads, num_heads / num_kv_heads, seq_len, seq_len], dt⟩
  else .error .shapeMismatch

/-- Modelled from the spec: `ops.prompt_attention` / `prompt_fsdpa` (external
dense prefill kernels, pure tensor transforms) return a tensor of the query's
shape and dtype. -/
def promptAttentionTD (q : TD) : Except TErr TD :=
  if q.shape.length = 4 then .ok q else .error .rankMismatch

/-- Modelled from the spec: `HPUPagedAttention.forward_prefix` (external
prefix-caching prefill) returns a tensor of the query's shape and dtype. -/
def forwardPrefixTD (q kc vc : TD) : Except TErr TD :=
  if q.shape.length = 4 then .ok q else .error .rankMismatch

def dimAt (t : TD) (i : ℕ) : Except TErr ℕ :=
  match t.shape[i]? with
  | some n => .ok n
  | none => .error .rankMismatch

/-- Shape/dtype model of `pa` (lines 77-94): `sub_`/`exp` keep the
descriptor; sums, the block2batch/batch2block aggregate, `maximum`, the
in-place division, then the attention×value matmul. -/
def paTD (attn value bm : TD) : Except TErr TD := do
  let sums ← attn.sumLastDim
  let sums := sums.unsqueezeLast
  let gs0 ← block2batchTD sums bm
  let gs1 ← batch2blockTD gs0 bm
  let gs ← TD.binop sums gs1
  let attn1 ← TD.binopInplace attn gs
  matmulTD attn1 value

/-- Shape/dtype model of `pipelined_const_pa` (lines 96-111): as `paTD` but
the in-place division happens after the attention×value matmul. -/
def pipelinedConstPaTD (attn value bm : TD) : Except TErr TD := do
  let sums ← attn.sumLastDim
  let sums := sums.unsqueezeLast
  let gs0 ← block2batchTD sums bm
  let gs1 ← batch2blockTD gs0 bm
  let gs ← TD.binop sums gs1
  let av ← matmulTD attn value
  TD.binopInplace av gs

/-- Modelled from the spec: shape/dtype model of the external
`ops.pipelined_pa` (plain policy; same tensor steps, no constant shift). -/
def pipelinedPaTD (attn value bm : TD) : Except TErr TD := do
  let sums ← attn.sumLastDim
  let sums := sums.unsqueezeLast
  let gs0 ← block2batchTD sums bm
  let gs1 ← batch2blockTD gs0 bm
  let gs ← TD.binop sums gs1
  let av ← matmulTD attn value
  TD.binopInplace av gs

/-- The grouped-query reshapes of `flat_pa` (lines 125-132): when the head
counts differ, extra bias dim, `unflatten` of query/key/value over kv-head
groups and the key transpose; otherwise only the key transpose. -/
def gqaReshapeTD (kv_heads q_heads : ℕ) (q1 k1 v1 bias0 : TD) :
    Except TErr (TD × TD × TD × TD) :=
  if kv_heads ≠ q_heads then do
    let bias1 ← bias0.unsqueezeDim1
    let q2 ← q1.unflattenAt 1 [some kv_heads, none]
    let k2a ← k1.unflattenAt 1 [some kv_heads, some 1]
    let v2 ← v1.unflattenAt 1 [some kv_heads, some 1]
    let k2 ← k2a.transposeDims 3 4
    pure (q2, k2, v2, bias1)
  else do
    let k2 ← k1.transposeDims 2 3
    pure (q1, k2, v1, bias0)

/-- The normalization dispatch of `flat_pa` (lines 139-146). -/
def normSelectTD (const_pa const_norm : Bool) (attn value bm : TD) :
    Except TErr TD :=
  if const_pa then pipelinedConstPaTD attn value bm
  else if const_norm then paTD attn value bm
  else pipelinedPaTD attn value bm

/-- Shape/dtype model of `flat_pa` (lines 113-151), including the
grouped-query reshapes and the `fp32_softmax` upcast (lines 135-137). -/
def flat_paTD (fp32_softmax const_pa const_norm : Bool)
    (query key_cache value_cache block_list block_mapping block_bias : TD) :
    Except TErr TD := do
  let q_heads ← dimAt query 1
  let kv_heads ← dimAt key_cache 2
  let q0 ← batch2blockTD query block_mapping
  let q1 ← q0.unsqueezeSecondLast
  let k0 ← fetchFromCacheTD key_cache block_list
  let k1 ← k0.transposeDims 1 2
  let v0 ← fetchFromCacheTD value_cache block_list
  let v1 ← v0.transposeDims 1 2
  let nb0 ← dimAt k1 0
  let bias0 ← block_bias.view [some nb0, some 1, some 1, none]
  let qkvb ← gqaReshapeTD kv_heads q_heads q1 k1 v1 bias0
  let attn0 ← matmulTD qkvb.1 qkvb.2.1
  let attn1 := if fp32_softmax then { attn0 with dtype := DType.f32 }
    else attn0
  let attn2 ← TD.binop attn1 qkvb.2.2.2
  let attn3 ← normSelectTD const_pa const_norm attn2 qkvb.2.2.1
    block_mapping
  let attn4 ← block2batchTD attn3 block_mapping
  let attn5 ← attn4.squeezeSecondLast
  if kv_heads ≠ q_heads then attn5.flatten12 else pure attn5

/-! ### `HPUAttentionImpl` construction (lines 241-295) -/

inductive AttnType where
  | decoder : AttnType
  | encoder : AttnType
  | encoderDecoder : AttnType
deriving DecidableEq

inductive InitErr where
  | assertFailed : InitErr
  | unsupportedHeadSize : InitErr
  | notImplemented : InitErr
deriving DecidableEq

structure AttnConfig where
  num_heads : ℕ
  head_size : ℕ
  num_kv_heads : Option ℕ
  alibi_slopes : Option (List ℚ)
  sliding_window : Option ℕ
  fsdpa_enabled : Bool
  attn_type : AttnType
deriving DecidableEq

structure ImplState where
  num_heads : ℕ
  head_size : ℕ
  num_kv_heads : ℕ
  num_queries_per_kv : ℕ
  alibi_slopes : Option (List ℚ)
  prefill_use_fusedsdpa : Bool
  attn_type : AttnType
deriving DecidableEq

/-- `HPUAttentionImpl.__init__` (hpu_attn.py lines 241-295): resolve
`num_kv_heads`, assert `num_heads % num_kv_heads == 0`, assert that ALiBi is
absent when the fused-SDPA prefill flag is enabled, reject head sizes outside
the supported set (`supported` abstracts the external
`HPUPagedAttention.get_supported_head_sizes()`), and reject encoder
self-attention.  Every failure is an error raised at construction, before
any forward call can exist on the resulting state. -/
def HPUAttentionImpl_init (supported : List ℕ) (cfg : AttnConfig) :
    Except InitErr ImplState :=
  let nkv := cfg.num_kv_heads.getD cfg.num_heads
  if cfg.num_heads % nkv ≠ 0 then .error .assertFailed
  else if cfg.fsdpa_enabled ∧ cfg.alibi_slopes.isSome then
    .error .assertFailed
  else if cfg.head_size ∉ supported then .error .unsupportedHeadSize
  else if cfg.attn_type ≠ AttnType.decoder
      ∧ cfg.attn_type ≠ AttnType.encoderDecoder then
    .error .notImplemented
  else .ok
    { num_heads := cfg.num_heads
      head_size := cfg.head_size
      num_kv_heads := nkv
      num_queries_per_kv := cfg.num_heads / nkv
      alibi_slopes := cfg.alibi_slopes
      prefill_use_fusedsdpa := cfg.fsdpa_enabled
      attn_type := cfg.attn_type }

/-! ### `HPUAttentionImpl.forward` (lines 297-430), descriptor level -/

structure FwdInput where
  query : TD
  key : TD
  value : TD
  kv_cache : Option (TD × TD)
  is_prompt : Bool
  enable_merged_prefill : Bool
  block_list : Option TD
  attn_bias : Option TD
  block_indices0 : ℕ
  block_mapping : TD
deriving DecidableEq

/-- The attention-bias preparation of the basic prompt path (lines 361-371):
assert `attn_bias` is present when the fused prefill kernel is unavailable;
with ALiBi, build the positional bias from the slopes, tile the metadata bias
across kv heads (`tile` makes a fresh copy) and add the positional bias in
place into that copy. -/
def biasPrepTD (st : ImplState) (inp : FwdInput) : Except TErr Unit := do
  if ¬ st.prefill_use_fusedsdpa then
    match inp.attn_bias with
    | none => .error .assertFailed
    | some ab =>
      if st.alibi_slopes.isSome then do
        let last ← dimAt ab (ab.shape.length - 1)
        let pb ← makeAlibiBiasTD st.num_heads st.num_kv_heads ab.dtype last
        let tiled ← tile4TD ab 1 st.num_kv_heads 1 1
        let _ ← TD.binopInplace tiled pb
        pure ()
      else pure ()
  else pure ()

def shape3 (t : TD) : Except TErr (ℕ × ℕ × ℕ) :=
  match t.shape with
  | [a, b, c] => .ok (a, b, c)
  | _ => .error .rankMismatch

/-- The prompt-path unflatten of key/value over `block_indices.size(0)`
(lines 340-342), run when `is_prompt and not enable_merged_prefill`. -/
def kvUnflattenTD (cond : Bool) (nbi : ℕ) (k0 v0 : TD) :
    Except TErr (TD × TD) :=
  if cond then do
    let k1 ← k0.unflattenAt 0 [some nbi, none]
    let v1 ← v0.unflattenAt 0 [some nbi, none]
    pure (k1, v1)
  else pure (k0, v0)

/-- Passing `None` where a tensor is required (e.g. a missing decode
`block_list`/`attn_bias` flowing into `flat_pa`) is a fatal type error. -/
def reqSomeTD (o : Option TD) : Except TErr TD :=
  match o with
  | some t => pure t
  | none => .error .typeMismatch

/-- The prompt branch of `forward` (lines 355-410): either the dense path
(bias preparation, `prompt_attention`) or, with a `block_list`, the
prefix-caching path reading `key_cache`/`value_cache` — which are unbound
when the kv-cache guard did not run.  Ends with the line-410 reshape. -/
def promptPathTD (st : ImplState) (inp : FwdInput)
    (block_list : Option TD) (cache : Option (TD × TD))
    (q k1 v1 : TD) (B S Hd Skv : ℕ) (wrote : Bool) :
    Except TErr (TD × Bool) :=
  match block_list with
  | none => do
      let _ ← biasPrepTD st inp
      let q4 ← q.view [some B, some S, some st.num_heads, some st.head_size]
      let _ ← k1.view [some B, some Skv, some st.num_kv_heads,
        some st.head_size]
      let _ ← v1.view [some B, some Skv, some st.num_kv_heads,
        some st.head_size]
      let out ← promptAttentionTD q4
      let out2 ← out.view [some B, some S, some Hd]
      pure (out2, wrote)
  | some _ =>
      match cache with
      | none => .error .unboundLocal
      | some kcvc => do
          let q4 ← q.view [some B, some S, some st.num_heads,
            some st.head_size]
          let _ ← k1.view [some B, some Skv, some st.num_kv_heads,
            some st.head_size]
          let _ ← v1.view [some B, some Skv, some st.num_kv_heads,
            some st.head_size]
          let out ← forwardPrefixTD q4 kcvc.1 kcvc.2
          let out2 ← out.view [some B, some S, some Hd]
          pure (out2, wrote)

/-- The decode branch of `forward` (lines 411-428): reads the Python locals
`key_cache`/`value_cache` — unbound when the kv-cache guard did not run —
and calls `flat_pa`. -/
def decodePathTD (fp32_softmax const_pa const_norm : Bool) (q : TD)
    (cache : Option (TD × TD)) (block_list attn_bias : Option TD) (bm : TD)
    (wrote : Bool) : Except TErr (TD × Bool) :=
  match cache with
  | none => .error .unboundLocal
  | some kcvc => do
      let bl ← reqSomeTD block_list
      let bias ← reqSomeTD attn_bias
      let out ← flat_paTD fp32_softmax const_pa const_norm q kcvc.1 kcvc.2
        bl bm bias
      pure (out, wrote)

/-- Body of `forward` between the input views and the final reshape.  The
Python locals `key_cache`/`value_cache` are assigned only under
`if kv_cache is not None and isinstance(kv_cache, tuple)` (line 343); reading
them on a path where that guard was false is the `UnboundLocalError`,
modelled as `.unboundLocal`.  The returned flag records whether the K/V cache
write ran. -/
def forwardCoreTD (st : ImplState) (fp32_softmax const_pa const_norm : Bool)
    (inp : FwdInput) (B S Hd Skv : ℕ) : Except TErr (TD × Bool) := do
  let q ← inp.query.view [none, some st.num_heads, some st.head_size]
  let k0 ← inp.key.view [none, some st.num_kv_heads, some st.head_size]
  let v0 ← inp.value.view [none, some st.num_kv_heads, some st.head_size]
  let kv1 ← kvUnflattenTD (inp.is_prompt && !inp.enable_merged_prefill)
    inp.block_indices0 k0 v0
  let cache : Option (TD × TD) := inp.kv_cache
  let wrote := cache.isSome
  if inp.is_prompt then
    promptPathTD st inp inp.block_list cache q kv1.1 kv1.2 B S Hd Skv wrote
  else
    decodePathTD fp32_softmax const_pa const_norm q cache inp.block_list
      inp.attn_bias inp.block_mapping wrote

/-- Shape/dtype model of `HPUAttentionImpl.forward` for the decoder attention
type: unpack `[batch_size, seq_len, hidden_size]` from the query and
`seq_len_kv` from the key, run the body, and reshape with
`output.view(batch_size, seq_len, hidden_size)` (line 430). -/
def forwardTD (st : ImplState) (fp32_softmax const_pa const_norm : Bool)
    (inp : FwdInput) : Except TErr (TD × Bool) := do
  let bsh ← shape3 inp.query
  let kk ← shape3 inp.key
  let core ← forwardCoreTD st fp32_softmax const_pa const_norm inp
    bsh.1 bsh.2.1 bsh.2.2 kk.2.1
  let out ← core.1.view [some bsh.1, some bsh.2.1, some bsh.2.2]
  pure (out, core.2)

/-! ## ALiBi bias construction across forward calls -/

/-- Content of `_make_alibi_bias` (hpu_attn.py lines 544-573): after the
arange subtraction (`bias[i][j] = j - i`), the padded-empty copy, the slice
back to `seq_len` and the in-place slope multiply, entry `(h, i, j)` of the
bias is `slopes[h] * (j - i)`.  The final kv-head `unflatten` (line 571-572)
only regroups the head axis.  The function is deterministic in its inputs;
`seq_len` bounds the valid index range and does not change stored entries. -/
def make_alibi_bias (alibi_slopes : List ℚ) (num_kv_heads : ℕ)
    (seq_len : ℕ) : ℕ → ℕ → ℕ → ℚ :=
  fun h i j => alibi_slopes.getD h 0 * (((j : ℤ) - (i : ℤ) : ℤ) : ℚ)

/-- The ALiBi-relevant shape of one forward call. -/
structure FwdCall where
  is_prompt : Bool
  block_list_none : Bool
  seq_len : ℕ
deriving DecidableEq

/-- The bias matrices constructed by one `forward` call (lines 363-371): on
the basic prompt path, with ALiBi slopes configured and the fused prefill
kernel unavailable, `_make_alibi_bias` runs once; on other paths it does not
run.  `HPUAttentionImpl.__init__` stores only the slopes (no bias attribute
exists) and `forward` assigns no attribute, so the implementation state is
returned unchanged — there is nowhere for a cached bias to live. -/
def forwardAlibiBuilt (st : ImplState) (c : FwdCall) :
    ImplState × List (ℕ → ℕ → ℕ → ℚ) :=
  match st.alibi_slopes with
  | some slopes =>
    if c.is_prompt && c.block_list_none && !st.prefill_use_fusedsdpa then
      (st, [make_alibi_bias slopes st.num_kv_heads c.seq_len])
    else (st, [])
  | none => (st, [])

/-- Iterated forward calls, accumulating every bias matrix constructed. -/
def runForwardAlibi (st : ImplState) :
    List FwdCall → ImplState × List (ℕ → ℕ → ℕ → ℚ)
  | [] => (st, [])
  | c :: cs =>
    let r := forwardAlibiBuilt st c
    let rest := runForwardAlibi r.1 cs
    (rest.1, r.2 ++ rest.2)

end HpuAttn

namespace Llama

/-! ## Llama attention output projection split
(src/vllm/model_executor/models/llama.py) -/

/-- `get_split_size` (llama.py lines 66-71): below 128 the argument is a
target number of slices, otherwise a fixed slice length. -/
def get_split_size (seq_len batch_size orig_split_size : ℕ) : ℕ :=
  if orig_split_size < 128 then
    max ((seq_len * batch_size) / orig_split_size) 1
  else orig_split_size

/-- Modelled from the spec: `o_proj` is an external `RowParallelLinear`
(linear projections are out-of-scope collaborators per §1) — a linear map
with weight `W` and bias applied along the last dimension, acting row-wise
over all leading indices; `self.o_proj(x)[0]` is this application. -/
def o_proj_apply (W : ℕ → ℕ → ℚ) (bias : ℕ → ℚ) (q_size : ℕ)
    (x : ℕ → ℚ) : ℕ → ℚ :=
  fun o => (∑ i : Fin q_size, x i.val * W o i.val) + bias o

/-- Token-major flattening of `attn_output` `[batch, seq, q_size]`, the
first step of `attn_output.view(-1, split_size, q_size)`. -/
def flattenTokens (S : ℕ) (x : ℕ → ℕ → ℕ → ℚ) : ℕ → ℕ → ℚ :=
  fun t i => x (t / S) (t % S) i

/-- Regrouping flat tokens into `[*, split_size, q_size]`, the second step
of `attn_output.view(-1, split_size, q_size)`. -/
def groupTokens (split : ℕ) (y : ℕ → ℕ → ℚ) : ℕ → ℕ → ℕ → ℚ :=
  fun n j i => y (n * split + j) i

/-- `torch.split(attn_output, 1)` slices dim 0 into singleton slices;
applying `o_proj` to each `[1, split_size, q_size]` slice and
`torch.cat`-ing the results applies the linear map at every
(slice, position) row (llama.py lines 304-311). -/
def sliceProjCat (W : ℕ → ℕ → ℚ) (bias : ℕ → ℚ) (q_size : ℕ)
    (g : ℕ → ℕ → ℕ → ℚ) : ℕ → ℕ → ℕ → ℚ :=
  fun n j o => o_proj_apply W bias q_size (g n j) o

/-- `output.view(batch_size, seq_len, hidden_size)` after the cat
(line 312). -/
def viewBSH (S split : ℕ) (z : ℕ → ℕ → ℕ → ℚ) : ℕ → ℕ → ℕ → ℚ :=
  fun b s o => z ((b * S + s) / split) ((b * S + s) % split) o

/-- The split branch of `LlamaAttention.forward` (lines 302-313) with
`output_slice` false. -/
def attnOutputSplit (W : ℕ → ℕ → ℚ) (bias : ℕ → ℚ) (q_size split S : ℕ)
    (x : ℕ → ℕ → ℕ → ℚ) : ℕ → ℕ → ℕ → ℚ :=
  viewBSH S split
    (sliceProjCat W bias q_size (groupTokens split (flattenTokens S x)))

/-- The non-split branch (line 315): `o_proj` applied to the whole
`attn_output`. -/
def attnOutputNoSplit (W : ℕ → ℕ → ℚ) (bias : ℕ → ℚ) (q_size : ℕ)
    (x : ℕ → ℕ → ℕ → ℚ) : ℕ → ℕ → ℕ → ℚ :=
  fun b s o => o_proj_apply W bias q_size (x b s) o

end Llama

namespace HpuAttn

/-! ## Heap model of in-place effects

Tensors live in numbered buffers; out-of-place operations allocate a fresh
buffer, views alias an existing buffer (no effect), and in-place operations
(`sub_`, `div_`, `add_`, `mul_`, `copy_`, the cache `index_put_`) overwrite
a buffer.  `forward` is traced at this level to delimit which buffers it
writes.  `vals` abstracts the values each step produces. -/

structure Heap (V : Type) where
  mem : ℕ → V
  next : ℕ
  clk : ℕ

/-- Allocate a fresh buffer holding the `clk`-th produced value. -/
def halloc {V : Type} (vals : ℕ → V) (s : Heap V) : ℕ × Heap V :=
  (s.next,
    ⟨Function.update s.mem s.next (vals s.clk), s.next + 1, s.clk + 1⟩)

/-- Overwrite buffer `r` in place with the `clk`-th produced value. -/
def hstore {V : Type} (vals : ℕ → V) (s : Heap V) (r : ℕ) : Heap V :=
  ⟨Function.update s.mem r (vals s.clk), s.next, s.clk + 1⟩

/-- Heap effects of `_make_alibi_bias` (lines 550-573): `arange` and the
broadcast subtraction allocate, `torch.empty` allocates the padded buffer,
the slice `[:, :, :, :seq_len]` aliases it, `copy_` and `mul_` overwrite
that fresh buffer in place, the final `unflatten` is a view.  Returns the
bias buffer. -/
def make_alibi_bias_heap {V : Type} (vals : ℕ → V) (s0 : Heap V) :
    ℕ × Heap V :=
  let a1 := halloc vals s0
  let a2 := halloc vals a1.2
  let a3 := halloc vals a2.2
  let s4 := hstore vals a3.2 a3.1
  let s5 := hstore vals s4 a3.1
  (a3.1, s5)

/-- Heap effects of the K/V cache insert (lines 350-353): `VLLMKVCache`
scatters in place into the two cache buffers (spec §4.1 `write`). -/
def kv_cache_write_heap {V : Type} (vals : ℕ → V) (kRef vRef : ℕ)
    (s0 : Heap V) : Heap V :=
  hstore vals (hstore vals s0 kRef) vRef

/-- Heap effects of the basic prompt branch (lines 361-393, 410): with
ALiBi, the positional bias is built, `attn_bias.tile(...)` allocates a fresh
copy of the metadata bias tensor, and `add_` overwrites that copy — never
the metadata buffer; then the external `prompt_attention` (a pure transform
per the spec) allocates its output; the reshape is a view. -/
def prompt_branch_heap {V : Type} (vals : ℕ → V) (alibi : Bool)
    (s0 : Heap V) : Heap V :=
  let s1 :=
    if alibi then
      let pb := make_alibi_bias_heap vals s0
      let tiled := halloc vals pb.2
      hstore vals tiled.2 tiled.1
    else s0
  (halloc vals s1).2

/-- Heap effects of `pa` (lines 77-94): `sub_` overwrites the score buffer,
`exp`, the sums, the two mapping matmuls and `maximum` allocate, `add_`
overwrites the aggregate, `div_` overwrites the exponentials buffer, the
value matmul allocates. -/
def pa_heap {V : Type} (vals : ℕ → V) (attnRef : ℕ) (s0 : Heap V) :
    ℕ × Heap V :=
  let s1 := hstore vals s0 attnRef
  let e := halloc vals s1
  let sums := halloc vals e.2
  let g1 := halloc vals sums.2
  let g2 := halloc vals g1.2
  let s2 := hstore vals g2.2 g2.1
  let mx := halloc vals s2
  let s3 := hstore vals mx.2 e.1
  halloc vals s3

/-- Heap effects of `pipelined_const_pa` (lines 96-111): as `pa_heap`, with
the in-place division targeting the value-matmul result. -/
def pipelined_const_pa_heap {V : Type} (vals : ℕ → V) (attnRef : ℕ)
    (s0 : Heap V) : ℕ × Heap V :=
  let s1 := hstore vals s0 attnRef
  let e := halloc vals s1
  let sums := halloc vals e.2
  let g1 := halloc vals sums.2
  let g2 := halloc vals g1.2
  let s2 := hstore vals g2.2 g2.1
  let mx := halloc vals s2
  let av := halloc vals mx.2
  let s3 := hstore vals av.2 av.1
  (av.1, s3)

/-- Modelled from the spec: heap effects of the external `ops.pipelined_pa`
(plain policy — same steps without the constant-shift `sub_`). -/
def pipelined_pa_heap {V : Type} (vals : ℕ → V) (attnRef : ℕ)
    (s0 : Heap V) : ℕ × Heap V :=
  let e := halloc vals s0
  let sums := halloc vals e.2
  let g1 := halloc vals sums.2
  let g2 := halloc vals g1.2
  let s2 := hstore vals g2.2 g2.1
  let mx := halloc vals s2
  let av := halloc vals mx.2
  let s3 := hstore vals av.2 av.1
  (av.1, s3)

/-- Heap effects of `flat_pa` (lines 113-151): `scale * query`, the
batch2block matmul, the two cache gathers and the QK matmul allocate; the
optional `float()` copies; `block_bias.view` aliases the metadata bias
buffer and is only read; `attn + block_bias` allocates; the selected
normalization runs on that fresh buffer; the final block2batch matmul
allocates (squeeze/flatten are views). -/
def flat_pa_heap {V : Type} (vals : ℕ → V) (fp32 cpa cn : Bool)
    (s0 : Heap V) : Heap V :=
  let sq := halloc vals s0
  let q := halloc vals sq.2
  let k := halloc vals q.2
  let v := halloc vals k.2
  let attn0 := halloc vals v.2
  let s1 := if fp32 then (halloc vals attn0.2).2 else attn0.2
  let attn := halloc vals s1
  let n :=
    if cpa then pipelined_const_pa_heap vals attn.1 attn.2
    else if cn then pa_heap vals attn.1 attn.2
    else pipelined_pa_heap vals attn.1 attn.2
  (halloc vals n.2).2

/-- Heap effects of `HPUAttentionImpl.forward` for the decoder type: the
query/key/value views alias their buffers, the optional cache write
overwrites only the two cache buffers, then one branch runs; the final
`output.view` is a view.  `forward_prefix` is external and, per the spec, a
pure transform allocating its output. -/
def forward_heap {V : Type} (vals : ℕ → V)
    (cachePresent isPrompt blockListPresent alibi fsdpa fp32 cpa cn : Bool)
    (kRef vRef : ℕ) (s0 : Heap V) : Heap V :=
  let s1 := if cachePresent then kv_cache_write_heap vals kRef vRef s0
    else s0
  if isPrompt then
    if blockListPresent then (halloc vals s1).2
    else prompt_branch_heap vals (alibi && !fsdpa) s1
  else flat_pa_heap vals fp32 cpa cn s1

/-- The buffers holding the `AttentionMetadata` fields named by the claim. -/
structure MetaRefs where
  block_list : ℕ
  block_mapping : ℕ
  block_groups : ℕ
  block_scales : ℕ
  attn_bias : ℕ
  seq_lens_tensor : ℕ
  cross_block_list : ℕ
  cross_block_mapping : ℕ
  cross_block_groups : ℕ
  cross_block_scales : ℕ
  cross_attn_bias : ℕ
deriving DecidableEq

def MetaRefs.refs (mr : MetaRefs) : List ℕ :=
  [mr.block_list, mr.block_mapping, mr.block_groups, mr.block_scales,
    mr.attn_bias, mr.seq_lens_tensor, mr.cross_block_list,
    mr.cross_block_mapping, mr.cross_block_groups, mr.cross_block_scales,
    mr.cross_attn_bias]

/-! ### Concrete inputs used by the C5/C6 theorems -/

def c5wSt : ImplState :=
  { num_heads := 1, head_size := 4, num_kv_heads := 1, num_queries_per_kv := 1,
    alibi_slopes := none, prefill_use_fusedsdpa := false,
    attn_type := .decoder }

def c5wInp : FwdInput :=
  { query := ⟨[1, 1, 4], .bf16⟩, key := ⟨[1, 1, 4], .bf16⟩,
    value := ⟨[1, 1, 4], .bf16⟩,
    kv_cache := some (⟨[2, 1, 1, 4], .bf16⟩, ⟨[2, 1, 1, 4], .bf16⟩),
    is_prompt := false, enable_merged_prefill := false,
    block_list := some ⟨[1], .bf16⟩, attn_bias := some ⟨[1, 1], .bf16⟩,
    block_indices0 := 1, block_mapping := ⟨[1, 1], .bf16⟩ }

def c6wSt : ImplState :=
  { num_heads := 1, head_size := 4, num_kv_heads := 1, num_queries_per_kv := 1,
    alibi_slopes := none, prefill_use_fusedsdpa := false,
    attn_type := .decoder }

def c6wInpDecode : FwdInput :=
  { query := ⟨[1, 1, 4], .bf16⟩, key := ⟨[1, 1, 4], .bf16⟩,
    value := ⟨[1, 1, 4], .bf16⟩,
    kv_cache := none,
    is_prompt := false, enable_merged_prefill := false,
    block_list := some ⟨[1], .bf16⟩, attn_bias := some ⟨[1, 1], .bf16⟩,
    block_indices0 := 1, block_mapping := ⟨[1, 1], .bf16⟩ }

def c6wInpPrompt : FwdInput :=
  { query := ⟨[1, 2, 4], .bf16⟩, key := ⟨[1, 2, 4], .bf16⟩,
    value := ⟨[1, 2, 4], .bf16⟩,
    kv_cache := none,
    is_prompt := true, enable_merged_prefill := false,
    block_list := none, attn_bias := some ⟨[1, 1, 2, 2], .bf16⟩,
    block_indices0 := 1, block_mapping := ⟨[1, 1], .bf16⟩ }

/-! ### Concrete inputs used by the C2 witness -/

def c2wE : ℚ → ℚ := fun _ => 1

def c2wQuery : Fin 1 → Fin 1 → Fin 1 → ℚ := fun _ _ _ => 1

def c2wCache : Fin 1 → Fin 1 → Fin 1 → Fin 1 → ℚ := fun _ _ _ _ => 1

def c2wBl : Fin 2 → Fin 1 := fun _ => 0

def c2wBm : Fin 2 → Fin 1 := fun _ => 0

def c2wBias : Fin 2 → Fin 1 → Score := fun b _ => if b = 0 then none else some 0

def c2wScales : Fin 2 → ℚ := fun _ => 1

def c2wGroups : Fin 2 → ℕ := fun _ => 0

/-! ### Concrete inputs used by the C1 witness -/

def c1wE : ℚ → ℚ := fun _ => 1

def c1wBm : Fin 1 → Fin 1 := fun _ => 0

def c1wAttn : Fin 1 → Fin 1 → Fin 1 → Score := fun _ _ _ => some 0

def c1wValue : Fin 1 → Fin 1 → Fin 1 → Fin 1 → ℚ := fun _ _ _ _ => 1

def c1wScales : Fin 1 → ℚ := fun _ => 1

def c1wGroups : Fin 1 → ℕ := fun _ => 0

/-! ## Theorems -/

section Lemmas

lemma block2batch_apply [AddCommMonoid α] (bm : Fin nb → Fin bs)
    (y : Fin nb → Fin H → α) (s : Fin bs) (h : Fin H) :
    block2batch bm y s h = ∑ b, if bm b = s then y b h else 0 := by
  simp only [block2batch]
  rw [Finset.sum_apply]
  refine Finset.sum_congr rfl fun b _ => ?_
  by_cases hb : bm b = s <;> simp [hb]

lemma block2batch_apply2 [AddCommMonoid α] (bm : Fin nb → Fin bs)
    (y : Fin nb → Fin H → Fin hd → α) (s : Fin bs) (h : Fin H) (d : Fin hd) :
    block2batch bm y s h d = ∑ b, if bm b = s then y b h d else 0 := by
  simp only [block2batch]
  rw [Finset.sum_apply, Finset.sum_apply]
  refine Finset.sum_congr rfl fun b _ => ?_
  by_cases hb : bm b = s <;> simp [hb]

@[simp] lemma xexp_none (E : ℚ → ℚ) : xexp E none = 0 := rfl

@[simp] lemma xsub_none (c : ℚ) : xsub none c = none := rfl

@[simp] lemma xadd_none (a : ℚ) : xadd a none = none := rfl

lemma xexp_nonneg (E : ℚ → ℚ) (hE : ∀ x, 0 ≤ E x) (a : Score) :
    0 ≤ xexp E a := by
  cases a with
  | none => simp [xexp]
  | some x => exact hE x

lemma pa_eq_pipelined_aux (constVal eps : ℚ) (E : ℚ → ℚ)
    (attn : Fin nb → Fin H → Fin blk → Score)
    (value : Fin nb → Fin H → Fin blk → Fin hd → ℚ)
    (batch_size : ℕ) (block_groups : Fin nb → ℕ)
    (bm : Fin nb → Fin bs) (block_scales : Fin nb → ℚ) :
    pa constVal eps E attn value batch_size block_groups bm block_scales
      = pipelined_const_pa constVal eps E attn value block_groups bm
          block_scales := by
  funext b h d
  simp only [pa, pipelined_const_pa]
  rw [Finset.sum_div]
  exact Finset.sum_congr rfl fun t _ => div_mul_eq_mul_div _ _ _

lemma pipelined_const_pa_eq_gpipe (constVal eps : ℚ) (E : ℚ → ℚ)
    (attn : Fin nb → Fin H → Fin blk → Score)
    (value : Fin nb → Fin H → Fin blk → Fin hd → ℚ)
    (block_groups : Fin nb → ℕ)
    (bm : Fin nb → Fin bs) (block_scales : Fin nb → ℚ) :
    pipelined_const_pa constVal eps E attn value block_groups bm block_scales
      = gpipe (fun a => xexp E (xsub a constVal)) attn value bm eps := rfl

lemma pipelined_pa_eq_gpipe (eps : ℚ) (E : ℚ → ℚ)
    (attn : Fin nb → Fin H → Fin blk → Score)
    (value : Fin nb → Fin H → Fin blk → Fin hd → ℚ)
    (block_groups : Fin nb → ℕ)
    (bm : Fin nb → Fin bs) (block_scales : Fin nb → ℚ) (batch_size : ℕ) :
    pipelined_pa eps E attn value block_groups bm block_scales batch_size
      = gpipe (xexp E) attn value bm eps := rfl

lemma paGroupSums_removed {m bs H : ℕ} (bm : Fin (m + 1) → Fin bs)
    (sums : Fin (m + 1) → Fin H → ℚ) (eps : ℚ) (i : Fin (m + 1))
    (hzero : ∀ h, sums i h = 0) (j : Fin m) (h : Fin H) :
    paGroupSums (fun j' => bm (i.succAbove j'))
        (fun j' => sums (i.succAbove j')) eps j h
      = paGroupSums bm sums eps (i.succAbove j) h := by
  simp only [paGroupSums, batch2block]
  rw [block2batch_apply, block2batch_apply]
  have hsum : (∑ b, if bm b = bm (i.succAbove j) then sums b h else 0)
      = ∑ j', if bm (i.succAbove j') = bm (i.succAbove j)
          then sums (i.succAbove j') h else 0 := by
    rw [Fin.sum_univ_succAbove
      (fun b => if bm b = bm (i.succAbove j) then sums b h else 0) i]
    rw [hzero h, ite_self, zero_add]
  rw [hsum]

lemma gpipe_masked_zero {nb bs H blk hd : ℕ} (f : Score → ℚ)
    (hf : f none = 0) (attn : Fin nb → Fin H → Fin blk → Score)
    (value : Fin nb → Fin H → Fin blk → Fin hd → ℚ)
    (bm : Fin nb → Fin bs) (eps : ℚ) (i : Fin nb)
    (hmask : ∀ h t, attn i h t = none) (h : Fin H) (d : Fin hd) :
    gpipe f attn value bm eps i h d = 0 := by
  simp only [gpipe]
  have hnum : (∑ t, f (attn i h t) * value i h t d) = 0 := by
    simp [hmask, hf]
  rw [hnum, zero_div]

lemma gpipe_removed {m bs H blk hd : ℕ} (f : Score → ℚ) (hf : f none = 0)
    (attn : Fin (m + 1) → Fin H → Fin blk → Score)
    (value : Fin (m + 1) → Fin H → Fin blk → Fin hd → ℚ)
    (bm : Fin (m + 1) → Fin bs) (eps : ℚ) (i : Fin (m + 1))
    (hmask : ∀ h t, attn i h t = none) (j : Fin m) (h : Fin H) (d : Fin hd) :
    gpipe f (fun j' => attn (i.succAbove j')) (fun j' => value (i.succAbove j'))
        (fun j' => bm (i.succAbove j')) eps j h d
      = gpipe f attn value bm eps (i.succAbove j) h d := by
  simp only [gpipe]
  congr 1
  exact paGroupSums_removed bm (fun b h => ∑ t, f (attn b h t)) eps i
    (fun h => by simp [hmask, hf]) j h

lemma block2batch_gpipe_removed {m bs H blk hd : ℕ} (f : Score → ℚ)
    (hf : f none = 0) (attn : Fin (m + 1) → Fin H → Fin blk → Score)
    (value : Fin (m + 1) → Fin H → Fin blk → Fin hd → ℚ)
    (bm : Fin (m + 1) → Fin bs) (eps : ℚ) (i : Fin (m + 1))
    (hmask : ∀ h t, attn i h t = none) (s : Fin bs) (h : Fin H) (d : Fin hd) :
    block2batch bm (gpipe f attn value bm eps) s h d
      = block2batch (fun j => bm (i.succAbove j))
          (gpipe f (fun j => attn (i.succAbove j))
            (fun j => value (i.succAbove j))
            (fun j => bm (i.succAbove j)) eps) s h d := by
  rw [block2batch_apply2, block2batch_apply2]
  rw [Fin.sum_univ_succAbove
    (fun b => if bm b = s then gpipe f attn value bm eps b h d else 0) i]
  rw [gpipe_masked_zero f hf attn value bm eps i hmask h d, ite_self, zero_add]
  refine Finset.sum_congr rfl fun j _ => ?_
  by_cases hb : bm (i.succAbove j) = s
  · simp only [hb, if_true,
      gpipe_removed f hf attn value bm eps i hmask j h d]
  · simp [hb]

lemma except_bind_ok {α β : Type} {e : Except TErr α} {f : α → Except TErr β}
    {b : β} (h : (e >>= f) = .ok b) : ∃ a, e = .ok a ∧ f a = .ok b := by
  cases e with
  | ok a => exact ⟨a, rfl, h⟩
  | error ex => exact Except.noConfusion h

@[simp] lemma promote_self (d : DType) : d.promote d = d := by
  cases d <;> rfl

@[simp] lemma promote_f32_left (d : DType) : DType.f32.promote d = .f32 := by
  cases d <;> rfl

@[simp] lemma promote_f32_right (d : DType) : d.promote .f32 = .f32 := by
  cases d <;> rfl

lemma td_view_dtype {t : TD} {dims : List (Option ℕ)} {u : TD}
    (h : TD.view t dims = .ok u) : u.dtype = t.dtype := by
  unfold TD.view at h
  split at h
  · cases h; rfl
  · exact Except.noConfusion h

lemma viewShape_some₃ (n a b c : ℕ) :
    viewShape n [some a, some b, some c]
      = if a * (b * (c * 1)) = n then .ok [a, b, c]
        else .error .shapeMismatch := rfl

lemma viewShape_some₄ (n a b c d : ℕ) :
    viewShape n [some a, some b, some c, some d]
      = if a * (b * (c * (d * 1))) = n then .ok [a, b, c, d]
        else .error .shapeMismatch := rfl

lemma viewShape_none₂ (n a b : ℕ) :
    viewShape n [none, some a, some b]
      = if a * (b * 1) ≠ 0 ∧ a * (b * 1) ∣ n
        then .ok [n / (a * (b * 1)), a, b] else .error .shapeMismatch := rfl

lemma viewShape_some_none (n a : ℕ) :
    viewShape n [some a, none]
      = if a * 1 ≠ 0 ∧ a * 1 ∣ n then .ok [a, n / (a * 1)]
        else .error .shapeMismatch := rfl

lemma viewShape_some_one (n a : ℕ) :
    viewShape n [some a, some 1]
      = if a * (1 * 1) = n then .ok [a, 1] else .error .shapeMismatch := rfl

lemma td_view3_ok {t : TD} {a b c : ℕ} {u : TD}
    (h : TD.view t [some a, some b, some c] = .ok u) :
    u = ⟨[a, b, c], t.dtype⟩ := by
  unfold TD.view at h
  rw [viewShape_some₃] at h
  by_cases hc : a * (b * (c * 1)) = numel t.shape
  · rw [if_pos hc] at h; cases h; rfl
  · rw [if_neg hc] at h; exact Except.noConfusion h

lemma td_unflatten_dtype {t : TD} {d : ℕ} {dims : List (Option ℕ)} {u : TD}
    (h : TD.unflattenAt t d dims = .ok u) : u.dtype = t.dtype := by
  unfold TD.unflattenAt at h
  split at h
  · split at h
    · cases h; rfl
    · exact Except.noConfusion h
  · exact Except.noConfusion h

lemma td_transpose_dtype {t : TD} {i j : ℕ} {u : TD}
    (h : TD.transposeDims t i j = .ok u) : u.dtype = t.dtype := by
  unfold TD.transposeDims at h
  split at h
  · cases h; rfl
  · exact Except.noConfusion h

@[simp] lemma td_unsqueezeLast_dtype (t : TD) :
    t.unsqueezeLast.dtype = t.dtype := rfl

lemma td_unsqueeze2_dtype {t u : TD} (h : TD.unsqueezeSecondLast t = .ok u) :
    u.dtype = t.dtype := by
  unfold TD.unsqueezeSecondLast at h
  split at h
  · cases h; rfl
  · exact Except.noConfusion h

lemma td_unsqueeze1_dtype {t u : TD} (h : TD.unsqueezeDim1 t = .ok u) :
    u.dtype = t.dtype := by
  unfold TD.unsqueezeDim1 at h
  split at h
  · cases h; rfl
  · exact Except.noConfusion h

lemma td_squeeze2_dtype {t u : TD} (h : TD.squeezeSecondLast t = .ok u) :
    u.dtype = t.dtype := by
  unfold TD.squeezeSecondLast at h
  split at h
  · split at h
    · cases h; rfl
    · cases h; rfl
  · exact Except.noConfusion h

lemma td_flatten12_dtype {t u : TD} (h : TD.flatten12 t = .ok u) :
    u.dtype = t.dtype := by
  unfold TD.flatten12 at h
  split at h
  · cases h; rfl
  · exact Except.noConfusion h

lemma td_sumLast_dtype {t u : TD} (h : TD.sumLastDim t = .ok u) :
    u.dtype = t.dtype := by
  unfold TD.sumLastDim at h
  split at h
  · exact Except.noConfusion h
  · cases h; rfl

lemma td_binop_dtype {a b u : TD} (h : TD.binop a b = .ok u) :
    u.dtype = a.dtype.promote b.dtype := by
  unfold TD.binop at h
  split at h
  · cases h; rfl
  · exact Except.noConfusion h

lemma td_binopInplace_ok {a b u : TD} (h : TD.binopInplace a b = .ok u) :
    u = a := by
  unfold TD.binopInplace at h
  split at h
  · split at h
    · cases h; rfl
    · exact Except.noConfusion h
  · exact Except.noConfusion h

lemma matmulTD_dtype {a b u : TD} (h : matmulTD a b = .ok u) :
    u.dtype = a.dtype.promote b.dtype := by
  unfold matmulTD at h
  split at h
  · split at h
    · split at h
      · cases h; rfl
      · exact Except.noConfusion h
    · exact Except.noConfusion h
  · exact Except.noConfusion h

lemma batch2blockTD_dtype {t bm u : TD} (h : batch2blockTD t bm = .ok u) :
    u.dtype = bm.dtype.promote t.dtype := by
  unfold batch2blockTD at h
  split at h
  · split at h
    · cases h; rfl
    · exact Except.noConfusion h
  · exact Except.noConfusion h

lemma block2batchTD_dtype {t bm u : TD} (h : block2batchTD t bm = .ok u) :
    u.dtype = bm.dtype.promote t.dtype := by
  unfold block2batchTD at h
  split at h
  · split at h
    · cases h; rfl
    · exact Except.noConfusion h
  · exact Except.noConfusion h

lemma fetchFromCacheTD_dtype {cache bl u : TD}
    (h : fetchFromCacheTD cache bl = .ok u) : u.dtype = cache.dtype := by
  unfold fetchFromCacheTD at h
  split at h
  · cases h; rfl
  · exact Except.noConfusion h

lemma except_pure_ok {α : Type} {a b : α}
    (h : (pure a : Except TErr α) = .ok b) : a = b := by
  cases h; rfl

@[simp] lemma ok_bind {α β : Type} (a : α) (f : α → Except TErr β) :
    (Except.ok a >>= f : Except TErr β) = f a := rfl

@[simp] lemma pure_eq_ok {α : Type} (a : α) :
    (pure a : Except TErr α) = .ok a := rfl

lemma shape3_ok {t : TD} {x : ℕ × ℕ × ℕ} (h : shape3 t = .ok x) :
    t.shape = [x.1, x.2.1, x.2.2] := by
  unfold shape3 at h
  split at h
  · next a b c heq => cases h; exact heq
  · exact Except.noConfusion h

lemma paTD_dtype {attn value bm u : TD} {d D : DType}
    (h : paTD attn value bm = .ok u)
    (ha : attn.dtype = D) (hv : value.dtype = d) (hb : bm.dtype = d)
    (habs1 : d.promote D = D) (habs2 : D.promote d = D) :
    u.dtype = D := by
  unfold paTD at h
  obtain ⟨sums, h1, h⟩ := except_bind_ok h
  obtain ⟨gs0, h2, h⟩ := except_bind_ok h
  obtain ⟨gs1, h3, h⟩ := except_bind_ok h
  obtain ⟨gs, h4, h⟩ := except_bind_ok h
  obtain ⟨attn1, h5, h⟩ := except_bind_ok h
  have h5' := td_binopInplace_ok h5
  rw [matmulTD_dtype h, h5', ha, hv, habs2]

lemma pipelinedConstPaTD_dtype {attn value bm u : TD} {d D : DType}
    (h : pipelinedConstPaTD attn value bm = .ok u)
    (ha : attn.dtype = D) (hv : value.dtype = d) (hb : bm.dtype = d)
    (habs1 : d.promote D = D) (habs2 : D.promote d = D) :
    u.dtype = D := by
  unfold pipelinedConstPaTD at h
  obtain ⟨sums, h1, h⟩ := except_bind_ok h
  obtain ⟨gs0, h2, h⟩ := except_bind_ok h
  obtain ⟨gs1, h3, h⟩ := except_bind_ok h
  obtain ⟨gs, h4, h⟩ := except_bind_ok h
  obtain ⟨av, h5, h⟩ := except_bind_ok h
  have h' := td_binopInplace_ok h
  rw [h', matmulTD_dtype h5, ha, hv, habs2]

lemma pipelinedPaTD_dtype {attn value bm u : TD} {d D : DType}
    (h : pipelinedPaTD attn value bm = .ok u)
    (ha : attn.dtype = D) (hv : value.dtype = d) (hb : bm.dtype = d)
    (habs1 : d.promote D = D) (habs2 : D.promote d = D) :
    u.dtype = D := by
  unfold pipelinedPaTD at h
  obtain ⟨sums, h1, h⟩ := except_bind_ok h
  obtain ⟨gs0, h2, h⟩ := except_bind_ok h
  obtain ⟨gs1, h3, h⟩ := except_bind_ok h
  obtain ⟨gs, h4, h⟩ := except_bind_ok h
  obtain ⟨av, h5, h⟩ := except_bind_ok h
  have h' := td_binopInplace_ok h
  rw [h', matmulTD_dtype h5, ha, hv, habs2]

lemma flat_paTD_dtype {fp32 cpa cn : Bool} {q kc vc bl bm bias u : TD}
    {d : DType}
    (h : flat_paTD fp32 cpa cn q kc vc bl bm bias = .ok u)
    (hq : q.dtype = d) (hkc : kc.dtype = d) (hvc : vc.dtype = d)
    (hbm : bm.dtype = d) (hbias : bias.dtype = d) :
    u.dtype = if fp32 then DType.f32 else d := by
  unfold flat_paTD at h
  obtain ⟨qh, e1, h⟩ := except_bind_ok h
  obtain ⟨kvh, e2, h⟩ := except_bind_ok h
  obtain ⟨q0, e3, h⟩ := except_bind_ok h
  obtain ⟨q1, e4, h⟩ := except_bind_ok h
  obtain ⟨k0, e5, h⟩ := except_bind_ok h
  obtain ⟨k1, e6, h⟩ := except_bind_ok h
  obtain ⟨v0, e7, h⟩ := except_bind_ok h
  obtain ⟨v1, e8, h⟩ := except_bind_ok h
  obtain ⟨nb0, e9, h⟩ := except_bind_ok h
  obtain ⟨bias0, e10, h⟩ := except_bind_ok h
  obtain ⟨qkvb, e11, h⟩ := except_bind_ok h
  obtain ⟨attn0, e12, h⟩ := except_bind_ok h
  obtain ⟨attn2, e13, h⟩ := except_bind_ok h
  obtain ⟨attn3, e14, h⟩ := except_bind_ok h
  obtain ⟨attn4, e15, h⟩ := except_bind_ok h
  obtain ⟨attn5, e16, h⟩ := except_bind_ok h
  have hq1 : q1.dtype = d := by
    rw [td_unsqueeze2_dtype e4, batch2blockTD_dtype e3, hbm, hq, promote_self]
  have hk1 : k1.dtype = d := by
    rw [td_transpose_dtype e6, fetchFromCacheTD_dtype e5, hkc]
  have hv1 : v1.dtype = d := by
    rw [td_transpose_dtype e8, fetchFromCacheTD_dtype e7, hvc]
  have hbias0 : bias0.dtype = d := by rw [td_view_dtype e10, hbias]
  have hqkvb : qkvb.1.dtype = d ∧ qkvb.2.1.dtype = d ∧ qkvb.2.2.1.dtype = d
      ∧ qkvb.2.2.2.dtype = d := by
    unfold gqaReshapeTD at e11
    by_cases hkq : kvh ≠ qh
    · rw [if_pos hkq] at e11
      obtain ⟨bias1, f1, e11⟩ := except_bind_ok e11
      obtain ⟨q2, f2, e11⟩ := except_bind_ok e11
      obtain ⟨k2a, f3, e11⟩ := except_bind_ok e11
      obtain ⟨v2, f4, e11⟩ := except_bind_ok e11
      obtain ⟨k2, f5, e11⟩ := except_bind_ok e11
      have := except_pure_ok e11
      subst this
      refine ⟨?_, ?_, ?_, ?_⟩
      · rw [td_unflatten_dtype f2, hq1]
      · rw [td_transpose_dtype f5, td_unflatten_dtype f3, hk1]
      · rw [td_unflatten_dtype f4, hv1]
      · rw [td_unsqueeze1_dtype f1, hbias0]
    · rw [if_neg hkq] at e11
      obtain ⟨k2, f1, e11⟩ := except_bind_ok e11
      have := except_pure_ok e11
      subst this
      exact ⟨hq1, by rw [td_transpose_dtype f1, hk1], hv1, hbias0⟩
  have hattn0 : attn0.dtype = d := by
    rw [matmulTD_dtype e12, hqkvb.1, hqkvb.2.1, promote_self]
  have hattn1 : (if fp32 then { attn0 with dtype := DType.f32 }
      else attn0).dtype = if fp32 then DType.f32 else d := by
    cases fp32 <;> simp [hattn0]
  have habs1 : d.promote (if fp32 then DType.f32 else d)
      = (if fp32 then DType.f32 else d) := by
    cases fp32 <;> simp
  have habs2 : (if fp32 then DType.f32 else d).promote d
      = (if fp32 then DType.f32 else d) := by
    cases fp32 <;> simp
  have hattn2 : attn2.dtype = if fp32 then DType.f32 else d := by
    rw [td_binop_dtype e13, hattn1, hqkvb.2.2.2, habs2]
  have hattn3 : attn3.dtype = if fp32 then DType.f32 else d := by
    unfold normSelectTD at e14
    by_cases hcpa : cpa = true
    · rw [hcpa] at e14
      rw [if_pos rfl] at e14
      exact pipelinedConstPaTD_dtype e14 hattn2 hqkvb.2.2.1 hbm habs1 habs2
    · rw [if_neg hcpa] at e14
      by_cases hcn : cn = true
      · rw [hcn, if_pos rfl] at e14
        exact paTD_dtype e14 hattn2 hqkvb.2.2.1 hbm habs1 habs2
      · rw [if_neg hcn] at e14
        exact pipelinedPaTD_dtype e14 hattn2 hqkvb.2.2.1 hbm habs1 habs2
  have hattn5 : attn5.dtype = if fp32 then DType.f32 else d := by
    rw [td_squeeze2_dtype e16, block2batchTD_dtype e15, hbm, hattn3, habs1]
  by_cases hkq : kvh ≠ qh
  · rw [if_pos hkq] at h
    rw [td_flatten12_dtype h, hattn5]
  · rw [if_neg hkq] at h
    rw [← except_pure_ok h, hattn5]

lemma promptAttentionTD_ok {q u : TD} (h : promptAttentionTD q = .ok u) :
    u = q := by
  unfold promptAttentionTD at h
  split at h
  · cases h; rfl
  · exact Except.noConfusion h

lemma forwardPrefixTD_ok {q kc vc u : TD}
    (h : forwardPrefixTD q kc vc = .ok u) : u = q := by
  unfold forwardPrefixTD at h
  split at h
  · cases h; rfl
  · exact Except.noConfusion h

lemma reqSomeTD_ok {o : Option TD} {t : TD} (h : reqSomeTD o = .ok t) :
    o = some t := by
  unfold reqSomeTD at h
  cases o with
  | some a => rw [← except_pure_ok h]
  | none => exact Except.noConfusion h

lemma promptPathTD_dtype {st : ImplState} {inp : FwdInput}
    {block_list : Option TD}
    {cache : Option (TD × TD)} {q k1 v1 : TD} {B S Hd Skv : ℕ} {wrote : Bool}
    {ow : TD × Bool}
    (h : promptPathTD st inp block_list cache q k1 v1 B S Hd Skv wrote
      = .ok ow) :
    ow.1.dtype = q.dtype := by
  unfold promptPathTD at h
  cases block_list with
  | none =>
    obtain ⟨u0, g1, h⟩ := except_bind_ok h
    obtain ⟨q4, g2, h⟩ := except_bind_ok h
    obtain ⟨k4, g3, h⟩ := except_bind_ok h
    obtain ⟨v4, g4, h⟩ := except_bind_ok h
    obtain ⟨out, g5, h⟩ := except_bind_ok h
    obtain ⟨out2, g6, h⟩ := except_bind_ok h
    rw [← except_pure_ok h]
    rw [td_view_dtype g6, promptAttentionTD_ok g5, td_view_dtype g2]
  | some bl =>
    cases cache with
    | none => exact Except.noConfusion h
    | some kcvc =>
      obtain ⟨q4, g2, h⟩ := except_bind_ok h
      obtain ⟨k4, g3, h⟩ := except_bind_ok h
      obtain ⟨v4, g4, h⟩ := except_bind_ok h
      obtain ⟨out, g5, h⟩ := except_bind_ok h
      obtain ⟨out2, g6, h⟩ := except_bind_ok h
      rw [← except_pure_ok h]
      rw [td_view_dtype g6, forwardPrefixTD_ok g5, td_view_dtype g2]

lemma decodePathTD_dtype {fp32 cpa cn : Bool} {q : TD}
    {cache : Option (TD × TD)} {block_list attn_bias : Option TD} {bm : TD}
    {wrote : Bool} {ow : TD × Bool} {d : DType}
    (h : decodePathTD fp32 cpa cn q cache block_list attn_bias bm wrote
      = .ok ow)
    (hq : q.dtype = d)
    (hcache : ∀ kc vc, cache = some (kc, vc) → kc.dtype = d ∧ vc.dtype = d)
    (hbm : bm.dtype = d)
    (hbias : ∀ ab, attn_bias = some ab → ab.dtype = d) :
    ow.1.dtype = if fp32 then DType.f32 else d := by
  unfold decodePathTD at h
  cases cache with
  | none => exact Except.noConfusion h
  | some kcvc =>
    obtain ⟨bl, g1, h⟩ := except_bind_ok h
    obtain ⟨bias, g2, h⟩ := except_bind_ok h
    obtain ⟨out, g3, h⟩ := except_bind_ok h
    have hkcvc := hcache kcvc.1 kcvc.2 rfl
    have hbiasd : bias.dtype = d := hbias bias (reqSomeTD_ok g2)
    have hdt := flat_paTD_dtype g3 hq hkcvc.1 hkcvc.2 hbm hbiasd
    rw [← except_pure_ok h]
    exact hdt

lemma view_none₂_eval (t : TD) (a b N : ℕ) (ha : a ≠ 0) (hb : b ≠ 0)
    (hN : numel t.shape = N * (a * b)) :
    TD.view t [none, some a, some b] = .ok ⟨[N, a, b], t.dtype⟩ := by
  have hab : a * (b * 1) ≠ 0 := by simp [ha, hb]
  have hdvd : a * (b * 1) ∣ numel t.shape := ⟨N, by rw [hN]; ring⟩
  have hdiv : numel t.shape / (a * (b * 1)) = N := by
    rw [hN, mul_one, Nat.mul_div_cancel]
    exact Nat.pos_of_ne_zero (by simp [ha, hb])
  unfold TD.view
  rw [viewShape_none₂, if_pos ⟨hab, hdvd⟩, hdiv]

lemma view_some₃_eval (t : TD) (a b c : ℕ)
    (hN : a * (b * (c * 1)) = numel t.shape) :
    TD.view t [some a, some b, some c] = .ok ⟨[a, b, c], t.dtype⟩ := by
  unfold TD.view
  rw [viewShape_some₃, if_pos hN]

lemma view_some₄_eval (t : TD) (a b c d : ℕ)
    (hN : a * (b * (c * (d * 1))) = numel t.shape) :
    TD.view t [some a, some b, some c, some d]
      = .ok ⟨[a, b, c, d], t.dtype⟩ := by
  unfold TD.view
  rw [viewShape_some₄, if_pos hN]

lemma unflatten0_eval {t : TD} {n : ℕ} {rest : List ℕ} (a : ℕ)
    (hshape : t.shape = n :: rest) (ha : a ≠ 0) (hdvd : a ∣ n) :
    TD.unflattenAt t 0 [some a, none] = .ok ⟨a :: n / a :: rest, t.dtype⟩ := by
  unfold TD.unflattenAt
  rw [hshape]
  simp only [List.getElem?_cons_zero]
  rw [viewShape_some_none, if_pos ⟨by simp [ha], by simpa using hdvd⟩]
  simp [mul_one]

lemma forwardTD_decode_no_cache {st : ImplState} {fp32 cpa cn : Bool}
    {inp : FwdInput} (hcache : inp.kv_cache = none)
    (hp : inp.is_prompt = false) :
    ∀ ow, forwardTD st fp32 cpa cn inp ≠ .ok ow := by
  intro ow hok
  unfold forwardTD at hok
  obtain ⟨bsh, h1, hok⟩ := except_bind_ok hok
  obtain ⟨kk, h2, hok⟩ := except_bind_ok hok
  obtain ⟨core, h3, hok⟩ := except_bind_ok hok
  unfold forwardCoreTD at h3
  obtain ⟨q, g1, h3⟩ := except_bind_ok h3
  obtain ⟨k0, g2, h3⟩ := except_bind_ok h3
  obtain ⟨v0, g3, h3⟩ := except_bind_ok h3
  obtain ⟨kv1, g4, h3⟩ := except_bind_ok h3
  rw [if_neg (by rw [hp]; exact Bool.noConfusion)] at h3
  rw [hcache] at h3
  unfold decodePathTD at h3
  exact Except.noConfusion h3

lemma forwardTD_prompt_no_cache_ok {qd : DType} {fp32 cpa cn : Bool}
    {B S Skv nh hs nkv nbi nq : ℕ} (ab bm : TD)
    (hnh : nh ≠ 0) (hhs : hs ≠ 0) (hnkv : nkv ≠ 0)
    (hnbi : nbi ≠ 0) (hdvd : nbi ∣ B * Skv) :
    forwardTD ⟨nh, hs, nkv, nq, none, false, .decoder⟩ fp32 cpa cn
      ⟨⟨[B, S, nh * hs], qd⟩, ⟨[B, Skv, nkv * hs], qd⟩,
        ⟨[B, Skv, nkv * hs], qd⟩, none, true, false, none, some ab, nbi, bm⟩
      = .ok (⟨[B, S, nh * hs], qd⟩, false) := by
  have e3 : TD.view (⟨[B, S, nh * hs], qd⟩ : TD) [none, some nh, some hs]
      = .ok ⟨[B * S, nh, hs], qd⟩ :=
    view_none₂_eval _ _ _ _ hnh hhs (by simp [numel]; try ring)
  have e4 : TD.view (⟨[B, Skv, nkv * hs], qd⟩ : TD)
      [none, some nkv, some hs] = .ok ⟨[B * Skv, nkv, hs], qd⟩ :=
    view_none₂_eval _ _ _ _ hnkv hhs (by simp [numel]; try ring)
  have e5u : TD.unflattenAt (⟨[B * Skv, nkv, hs], qd⟩ : TD) 0
      [some nbi, none]
      = .ok ⟨nbi :: (B * Skv) / nbi :: [nkv, hs], qd⟩ :=
    unflatten0_eval nbi rfl hnbi hdvd
  have e7 : TD.view (⟨[B * S, nh, hs], qd⟩ : TD)
      [some B, some S, some nh, some hs] = .ok ⟨[B, S, nh, hs], qd⟩ :=
    view_some₄_eval _ _ _ _ _ (by simp [numel]; try ring)
  have e8 : TD.view (⟨nbi :: (B * Skv) / nbi :: [nkv, hs], qd⟩ : TD)
      [some B, some Skv, some nkv, some hs]
      = .ok ⟨[B, Skv, nkv, hs], qd⟩ := by
    apply view_some₄_eval
    have hc : nbi * ((B * Skv) / nbi) = B * Skv := Nat.mul_div_cancel' hdvd
    simp only [numel, List.prod_cons, List.prod_nil]
    calc B * (Skv * (nkv * (hs * 1)))
        = (B * Skv) * (nkv * (hs * 1)) := by ring
      _ = (nbi * ((B * Skv) / nbi)) * (nkv * (hs * 1)) := by rw [hc]
      _ = nbi * ((B * Skv) / nbi * (nkv * (hs * 1))) := by ring
  have e10 : TD.view (⟨[B, S, nh, hs], qd⟩ : TD)
      [some B, some S, some (nh * hs)] = .ok ⟨[B, S, nh * hs], qd⟩ :=
    view_some₃_eval _ _ _ _ (by simp [numel]; try ring)
  have e11 : TD.view (⟨[B, S, nh * hs], qd⟩ : TD)
      [some B, some S, some (nh * hs)] = .ok ⟨[B, S, nh * hs], qd⟩ :=
    view_some₃_eval _ _ _ _ (by simp [numel])
  simp [forwardTD, forwardCoreTD, kvUnflattenTD, promptPathTD,
    biasPrepTD, promptAttentionTD, shape3, e3, e4, e5u, e7, e8, e10, e11]

lemma forwardCoreTD_dtype {st : ImplState} {fp32 cpa cn : Bool}
    {inp : FwdInput} {B S Hd Skv : ℕ} {ow : TD × Bool}
    (h : forwardCoreTD st fp32 cpa cn inp B S Hd Skv = .ok ow)
    (hcache : ∀ kc vc, inp.kv_cache = some (kc, vc) →
      kc.dtype = inp.query.dtype ∧ vc.dtype = inp.query.dtype)
    (hbm : inp.block_mapping.dtype = inp.query.dtype)
    (hbias : ∀ ab, inp.attn_bias = some ab → ab.dtype = inp.query.dtype) :
    ow.1.dtype = if inp.is_prompt = false ∧ fp32 = true then DType.f32
      else inp.query.dtype := by
  unfold forwardCoreTD at h
  obtain ⟨q, h1, h⟩ := except_bind_ok h
  obtain ⟨k0, h2, h⟩ := except_bind_ok h
  obtain ⟨v0, h3, h⟩ := except_bind_ok h
  obtain ⟨kv1, h4, h⟩ := except_bind_ok h
  have hqd : q.dtype = inp.query.dtype := td_view_dtype h1
  by_cases hp : inp.is_prompt = true
  · rw [if_pos hp] at h
    rw [if_neg (by rintro ⟨hc, _⟩; rw [hp] at hc; exact Bool.noConfusion hc)]
    rw [promptPathTD_dtype h, hqd]
  · rw [if_neg hp] at h
    have hp' : inp.is_prompt = false := by
      cases hpv : inp.is_prompt
      · rfl
      · exact absurd hpv hp
    have hdt := decodePathTD_dtype h hqd hcache hbm hbias
    rw [hdt]
    by_cases hf : fp32 = true
    · rw [if_pos hf, if_pos ⟨hp', hf⟩]
    · rw [if_neg hf, if_neg (fun hcon => hf hcon.2)]

lemma update_frame {V : Type} (f : ℕ → V) (k : ℕ) (v : V) (r : ℕ)
    (h : r ≠ k) : Function.update f k v r = f r := Function.update_noteq h v f

lemma kv_cache_write_heap_frame {V : Type} (vals : ℕ → V) (kRef vRef : ℕ)
    (s : Heap V) (r : ℕ) (hk : r ≠ kRef) (hv : r ≠ vRef) :
    (kv_cache_write_heap vals kRef vRef s).mem r = s.mem r
    ∧ (kv_cache_write_heap vals kRef vRef s).next = s.next := by
  unfold kv_cache_write_heap
  constructor
  · simp only [hstore]
    rw [update_frame _ _ _ _ hv, update_frame _ _ _ _ hk]
  · rfl

lemma prompt_branch_heap_frame {V : Type} (vals : ℕ → V) (alibi : Bool)
    (s : Heap V) (r : ℕ) (hr : r < s.next) :
    (prompt_branch_heap vals alibi s).mem r = s.mem r
    ∧ s.next ≤ (prompt_branch_heap vals alibi s).next := by
  unfold prompt_branch_heap make_alibi_bias_heap
  cases alibi with
  | false =>
    simp only [Bool.false_eq_true, if_false, halloc, hstore]
    exact ⟨by rw [update_frame _ _ _ _ (by omega)], by omega⟩
  | true =>
    simp only [if_true, halloc, hstore]
    constructor
    · repeat rw [update_frame _ _ _ _ (by omega)]
    · omega

lemma flat_pa_heap_frame {V : Type} (vals : ℕ → V) (fp32 cpa cn : Bool)
    (s : Heap V) (r : ℕ) (hr : r < s.next) :
    (flat_pa_heap vals fp32 cpa cn s).mem r = s.mem r
    ∧ s.next ≤ (flat_pa_heap vals fp32 cpa cn s).next := by
  unfold flat_pa_heap pipelined_const_pa_heap pa_heap pipelined_pa_heap
  cases fp32 <;> cases cpa <;> cases cn <;>
    simp only [Bool.false_eq_true, if_false, if_true, halloc, hstore] <;>
    exact ⟨by repeat rw [update_frame _ _ _ _ (by omega)], by omega⟩

lemma forward_heap_frame {V : Type} (vals : ℕ → V)
    (cp ip blp al fs fp32 cpa cn : Bool) (kRef vRef : ℕ) (s0 : Heap V)
    (r : ℕ) (hr : r < s0.next) (hk : r ≠ kRef) (hv : r ≠ vRef) :
    (forward_heap vals cp ip blp al fs fp32 cpa cn kRef vRef s0).mem r
      = s0.mem r := by
  unfold forward_heap
  have hs1 : (if cp then kv_cache_write_heap vals kRef vRef s0 else s0).mem r
        = s0.mem r
      ∧ (if cp then kv_cache_write_heap vals kRef vRef s0 else s0).next
        = s0.next := by
    cases cp with
    | false => simp
    | true => simpa using kv_cache_write_heap_frame vals kRef vRef s0 r hk hv
  obtain ⟨hm1, hn1⟩ := hs1
  have hlt : r < (if cp then kv_cache_write_heap vals kRef vRef s0
      else s0).next := by rw [hn1]; exact hr
  cases ip with
  | false =>
    simp only [Bool.false_eq_true, if_false]
    rw [(flat_pa_heap_frame vals fp32 cpa cn _ r hlt).1, hm1]
  | true =>
    simp only [if_true]
    cases blp with
    | false =>
      simp only [Bool.false_eq_true, if_false]
      rw [(prompt_branch_heap_frame vals (al && !fs) _ r hlt).1, hm1]
    | true =>
      simp only [if_true, halloc]
      rw [update_frame _ _ _ _ (by omega), hm1]

end Lemmas

/-- C1: In the paged decode path, for every block (and head) the denominator
dividing that block's exponentiated scores is exactly
`max(local block sum, (block2batch-then-batch2block aggregate over the blocks
of the same sequence) + eps)`; it is never smaller than the block's own local
sum, and is strictly positive whenever the epsilon floor is positive — even
if every score of the reduction group is masked to `-inf` (all exponentials
zero).  The first two conjuncts anchor this denominator as the exact divisor
used by `pa` and by `pipelined_const_pa`. -/
theorem c1_decode_denominator {nb bs H blk hd : ℕ}
    (bm : Fin nb → Fin bs) (E : ℚ → ℚ) (constVal eps : ℚ)
    (attn : Fin nb → Fin H → Fin blk → Score)
    (value : Fin nb → Fin H → Fin blk → Fin hd → ℚ)
    (batch_size : ℕ) (block_groups : Fin nb → ℕ) (block_scales : Fin nb → ℚ)
    (hE : ∀ x, 0 ≤ E x) (heps : 0 < eps) (b : Fin nb) (h : Fin H) :
    (∀ d, pa constVal eps E attn value batch_size block_groups bm
        block_scales b h d
      = ∑ t, (paExp E constVal attn b h t
          / paGroupSums bm (paSums E constVal attn) eps b h)
          * value b h t d)
    ∧ (∀ d, pipelined_const_pa constVal eps E attn value block_groups bm
        block_scales b h d
      = (∑ t, paExp E constVal attn b h t * value b h t d)
          / paGroupSums bm (paSums E constVal attn) eps b h)
    ∧ paGroupSums bm (paSums E constVal attn) eps b h
      = max (paSums E constVal attn b h)
          ((∑ b', if bm b' = bm b then paSums E constVal attn b' h else 0)
            + eps)
    ∧ paSums E constVal attn b h
        ≤ paGroupSums bm (paSums E constVal attn) eps b h
    ∧ 0 < paGroupSums bm (paSums E constVal attn) eps b h := by
  have hagg : 0 ≤ batch2block bm (block2batch bm (paSums E constVal attn)) b h := by
    simp only [batch2block]
    rw [block2batch_apply]
    refine Finset.sum_nonneg fun b' _ => ?_
    by_cases hb : bm b' = bm b
    · simp only [hb, if_true, paSums]
      exact Finset.sum_nonneg fun t _ => xexp_nonneg E hE _
    · simp [hb]
  refine ⟨fun d => rfl, fun d => rfl, ?_, le_max_left _ _, ?_⟩
  · simp only [paGroupSums, batch2block]
    rw [block2batch_apply]
  · refine lt_max_of_lt_right ?_
    linarith

/-- Witness for C1 at a concrete input: one block, one sequence, one head,
one slot, `E = fun _ => 1`, `eps = 1`. -/
theorem c1_decode_denominator_witness :
    (∀ x : ℚ, 0 ≤ c1wE x) ∧ (0 : ℚ) < 1 ∧
    ((∀ d, pa 0 1 c1wE c1wAttn c1wValue 1 c1wGroups c1wBm c1wScales 0 0 d
      = ∑ t, (paExp c1wE 0 c1wAttn 0 0 t
          / paGroupSums c1wBm (paSums c1wE 0 c1wAttn) 1 0 0)
          * c1wValue 0 0 t d)
    ∧ (∀ d, pipelined_const_pa 0 1 c1wE c1wAttn c1wValue c1wGroups c1wBm
        c1wScales 0 0 d
      = (∑ t, paExp c1wE 0 c1wAttn 0 0 t * c1wValue 0 0 t d)
          / paGroupSums c1wBm (paSums c1wE 0 c1wAttn) 1 0 0)
    ∧ paGroupSums c1wBm (paSums c1wE 0 c1wAttn) 1 0 0
      = max (paSums c1wE 0 c1wAttn 0 0)
          ((∑ b', if c1wBm b' = c1wBm 0
              then paSums c1wE 0 c1wAttn b' 0 else 0) + 1)
    ∧ paSums c1wE 0 c1wAttn 0 0
        ≤ paGroupSums c1wBm (paSums c1wE 0 c1wAttn) 1 0 0
    ∧ 0 < paGroupSums c1wBm (paSums c1wE 0 c1wAttn) 1 0 0) :=
  ⟨fun _ => by norm_num [c1wE], by norm_num,
    c1_decode_denominator c1wBm c1wE 0 1 c1wAttn c1wValue 1 c1wGroups
      c1wScales (fun _ => by norm_num [c1wE]) (by norm_num) 0 0⟩

/-- C3 counterexample: with two blocks owned by one sequence and the
constant-one per-block tensor, reducing with `block2batch` and broadcasting
back with `batch2block` yields the value 2 at every block, not the original
constant 1 — the round trip is not the identity on constant inputs. -/
theorem c3_roundtrip_counterexample :
    ¬ (batch2block (fun _ : Fin 2 => (0 : Fin 1))
        (block2batch (fun _ : Fin 2 => (0 : Fin 1)) (fun _ : Fin 2 => (1 : ℚ)))
      = fun _ : Fin 2 => (1 : ℚ)) := by
  intro hcontra
  have h0 := congrFun hcontra 0
  simp [batch2block, block2batch, Fin.sum_univ_two] at h0

/-- C3 (amended): for every block mapping, `block2batch` followed by
`batch2block` yields at every block the SUM of the input over all blocks of
that block's sequence; on a constant-`c` input this is `c` times the number
of blocks of the sequence (so the round trip replicates the per-sequence
aggregate, not the original constant). -/
theorem c3_roundtrip_amended {nb bs : ℕ} (bm : Fin nb → Fin bs)
    (x : Fin nb → ℚ) (b : Fin nb) :
    (batch2block bm (block2batch bm x) b
        = ∑ b', if bm b' = bm b then x b' else 0)
    ∧ ∀ c : ℚ, batch2block bm (block2batch bm (fun _ => c)) b
        = ((Finset.univ.filter (fun b' => bm b' = bm b)).card : ℚ) * c := by
  refine ⟨rfl, fun c => ?_⟩
  show (∑ b', if bm b' = bm b then c else 0) = _
  rw [← Finset.sum_filter, Finset.sum_const, nsmul_eq_mul]

/-- C4: for the same exponentiated scores, values and block metadata, the
constant-shift normalization that divides before the attention×value matmul
(`pa`) and the pipelined variant that divides after it
(`pipelined_const_pa`) produce equal outputs in exact arithmetic. -/
theorem c4_pa_pipelined_equiv {nb bs H blk hd : ℕ} (constVal eps : ℚ)
    (E : ℚ → ℚ) (attn : Fin nb → Fin H → Fin blk → Score)
    (value : Fin nb → Fin H → Fin blk → Fin hd → ℚ)
    (batch_size : ℕ) (block_groups : Fin nb → ℕ)
    (bm : Fin nb → Fin bs) (block_scales : Fin nb → ℚ) :
    pa constVal eps E attn value batch_size block_groups bm block_scales
      = pipelined_const_pa constVal eps E attn value block_groups bm
          block_scales :=
  pa_eq_pipelined_aux constVal eps E attn value batch_size block_groups bm
    block_scales

/-- C2: for every decode-path input in which one block's bias is `-inf` at
every slot, `flat_pa` (under any of its three normalization branches) returns
exactly the output it returns when that block is removed from `block_list`
(and correspondingly from `block_mapping`, `block_bias`, `block_scales` and
`block_groups`): a fully masked block contributes exactly zero weight. -/
theorem c2_masked_block_removal {m bs H blk hd nc : ℕ}
    (const_pa const_norm : Bool) (constVal eps scale : ℚ) (E : ℚ → ℚ)
    (query : Fin bs → Fin H → Fin hd → ℚ)
    (key_cache value_cache : Fin nc → Fin blk → Fin H → Fin hd → ℚ)
    (block_list : Fin (m + 1) → Fin nc)
    (block_mapping : Fin (m + 1) → Fin bs)
    (block_bias : Fin (m + 1) → Fin blk → Score)
    (block_scales : Fin (m + 1) → ℚ) (block_groups : Fin (m + 1) → ℕ)
    (batch_size : ℕ) (i : Fin (m + 1))
    (hmask : ∀ t, block_bias i t = none) :
    flat_pa const_pa const_norm constVal eps scale E query key_cache
        value_cache block_list block_mapping block_bias block_scales
        block_groups batch_size
      = flat_pa const_pa const_norm constVal eps scale E query key_cache
        value_cache (fun j => block_list (i.succAbove j))
        (fun j => block_mapping (i.succAbove j))
        (fun j => block_bias (i.succAbove j))
        (fun j => block_scales (i.succAbove j))
        (fun j => block_groups (i.succAbove j)) batch_size := by
  funext s h d
  have hm : ∀ (h : Fin H) (t : Fin blk),
      xadd (∑ d', batch2block block_mapping
          (fun s h d => scale * query s h d) i h d'
          * key_cache (block_list i) t h d') (block_bias i t) = none := by
    intro h t
    rw [hmask t, xadd_none]
  cases const_pa with
  | true =>
    simp only [flat_pa, if_true, pipelined_const_pa_eq_gpipe]
    exact block2batch_gpipe_removed _ rfl _ _ block_mapping eps i hm s h d
  | false =>
    cases const_norm with
    | true =>
      simp only [flat_pa, Bool.false_eq_true, if_false, if_true,
        pa_eq_pipelined_aux, pipelined_const_pa_eq_gpipe]
      exact block2batch_gpipe_removed _ rfl _ _ block_mapping eps i hm s h d
    | false =>
      simp only [flat_pa, Bool.false_eq_true, if_false,
        pipelined_pa_eq_gpipe]
      exact block2batch_gpipe_removed _ rfl _ _ block_mapping eps i hm s h d

/-- C5 counterexample: a successful decode call with `fp32_softmax` enabled
and a bf16 query returns a float32 tensor — the upcast at flat_pa lines
135-137 is never undone, so the output dtype differs from the query dtype,
refuting the claim's "same dtype as the input query" for this path. -/
theorem c5_dtype_counterexample :
    forwardTD c5wSt true true false c5wInp
        = .ok (⟨[1, 1, 4], .f32⟩, true)
    ∧ (⟨[1, 1, 4], DType.f32⟩ : TD).dtype ≠ c5wInp.query.dtype :=
  ⟨rfl, by decide⟩

/-- C5 (amended): every successful `forward` call (decoder type) returns a
tensor whose shape is the input query's `[batch_size, seq_len, hidden_size]`
and whose dtype equals the query dtype — except on the decode path with
`fp32_softmax` enabled, where the output dtype is float32.  Hypotheses state
that the other tensor inputs arrive in the query's dtype, as the engine
supplies them. -/
theorem c5_forward_output_contract {st : ImplState} {fp32 cpa cn : Bool}
    {inp : FwdInput} {td : TD} {wrote : Bool}
    (hok : forwardTD st fp32 cpa cn inp = .ok (td, wrote))
    (hcache : ∀ kc vc, inp.kv_cache = some (kc, vc) →
      kc.dtype = inp.query.dtype ∧ vc.dtype = inp.query.dtype)
    (hbm : inp.block_mapping.dtype = inp.query.dtype)
    (hbias : ∀ ab, inp.attn_bias = some ab → ab.dtype = inp.query.dtype) :
    td.shape = inp.query.shape
    ∧ td.dtype = (if inp.is_prompt = false ∧ fp32 = true then DType.f32
        else inp.query.dtype) := by
  unfold forwardTD at hok
  obtain ⟨bsh, h1, hok⟩ := except_bind_ok hok
  obtain ⟨kk, h2, hok⟩ := except_bind_ok hok
  obtain ⟨core, h3, hok⟩ := except_bind_ok hok
  obtain ⟨out, h4, hok⟩ := except_bind_ok hok
  have hpair : (out, core.2) = (td, wrote) := except_pure_ok hok
  have hout : out = td := congrArg Prod.fst hpair
  have hshape := td_view3_ok h4
  have hqs := shape3_ok h1
  have hdt := forwardCoreTD_dtype h3 hcache hbm hbias
  subst hout
  rw [hshape]
  exact ⟨hqs.symm, hdt⟩

/-- Witness for C5 (amended) at the concrete fp32 decode input: all
hypotheses hold and the theorem yields the shape and the float32 dtype. -/
theorem c5_forward_output_contract_witness :
    forwardTD c5wSt true true false c5wInp = .ok (⟨[1, 1, 4], .f32⟩, true)
    ∧ (∀ kc vc, c5wInp.kv_cache = some (kc, vc) →
        kc.dtype = c5wInp.query.dtype ∧ vc.dtype = c5wInp.query.dtype)
    ∧ c5wInp.block_mapping.dtype = c5wInp.query.dtype
    ∧ (∀ ab, c5wInp.attn_bias = some ab → ab.dtype = c5wInp.query.dtype)
    ∧ ((⟨[1, 1, 4], DType.f32⟩ : TD).shape = c5wInp.query.shape
      ∧ (⟨[1, 1, 4], DType.f32⟩ : TD).dtype
          = (if c5wInp.is_prompt = false ∧ true = true then DType.f32
              else c5wInp.query.dtype)) :=
  ⟨rfl,
    fun kc vc hkv => by cases hkv; exact ⟨rfl, rfl⟩,
    rfl,
    fun ab hab => by cases hab; rfl,
    @c5_forward_output_contract c5wSt true true false c5wInp
      ⟨[1, 1, 4], DType.f32⟩ true rfl
      (fun kc vc hkv => by cases hkv; exact ⟨rfl, rfl⟩) rfl
      (fun ab hab => by cases hab; rfl)⟩

/-- C6 counterexample: a decode-path call with `kv_cache` absent does not
return an output — it fails with the `UnboundLocalError` from reading the
never-assigned `key_cache` local (line 415), refuting the claim that the
decode path "still returns, without raising, an output tensor". -/
theorem c6_decode_counterexample :
    forwardTD c6wSt false false false c6wInpDecode
        = .error .unboundLocal
    ∧ ∀ ow, forwardTD c6wSt false false false c6wInpDecode ≠ .ok ow :=
  ⟨rfl, fun ow h => by
    rw [show forwardTD c6wSt false false false c6wInpDecode
        = Except.error TErr.unboundLocal from rfl] at h
    exact Except.noConfusion h⟩

/-- C6 (amended): when `kv_cache` is absent the cache writes are skipped, and
the basic prefill path (no prefix `block_list`, no ALiBi, fused kernel off)
still returns, without raising, an output of shape
`[batch_size, seq_len, hidden_size]` with the write flag false; the decode
path, however, never returns a value — it raises on the unbound
`key_cache`/`value_cache` locals. -/
theorem c6_missing_cache_behavior :
    (∀ (qd : DType) (fp32 cpa cn : Bool) (B S Skv nh hs nkv nbi nq : ℕ)
      (ab bm : TD), nh ≠ 0 → hs ≠ 0 → nkv ≠ 0 → nbi ≠ 0 → nbi ∣ B * Skv →
      forwardTD ⟨nh, hs, nkv, nq, none, false, .decoder⟩ fp32 cpa cn
        ⟨⟨[B, S, nh * hs], qd⟩, ⟨[B, Skv, nkv * hs], qd⟩,
          ⟨[B, Skv, nkv * hs], qd⟩, none, true, false, none, some ab, nbi,
          bm⟩
        = .ok (⟨[B, S, nh * hs], qd⟩, false))
    ∧ (∀ (st : ImplState) (fp32 cpa cn : Bool) (inp : FwdInput),
      inp.kv_cache = none → inp.is_prompt = false →
      ∀ ow, forwardTD st fp32 cpa cn inp ≠ .ok ow) :=
  ⟨fun _ _ _ _ _ _ _ _ _ _ _ _ ab bm h1 h2 h3 h4 h5 =>
    forwardTD_prompt_no_cache_ok ab bm h1 h2 h3 h4 h5,
   fun _ _ _ _ _ h1 h2 => forwardTD_decode_no_cache h1 h2⟩

/-- Witness for C6 (amended) at concrete inputs: a 2-token prefill with no
cache succeeds with the right shape and no write; the decode call with no
cache never returns ok. -/
theorem c6_missing_cache_behavior_witness :
    (forwardTD ⟨1, 4, 1, 1, none, false, .decoder⟩ false false false
      ⟨⟨[1, 2, 1 * 4], .bf16⟩, ⟨[1, 2, 1 * 4], .bf16⟩, ⟨[1, 2, 1 * 4], .bf16⟩,
        none, true, false, none, some ⟨[1, 1, 2, 2], .bf16⟩, 1,
        ⟨[1, 1], .bf16⟩⟩
      = .ok (⟨[1, 2, 1 * 4], .bf16⟩, false))
    ∧ c6wInpDecode.kv_cache = none
    ∧ c6wInpDecode.is_prompt = false
    ∧ ∀ ow, forwardTD c6wSt false false false c6wInpDecode ≠ .ok ow :=
  ⟨c6_missing_cache_behavior.1 .bf16 false false false 1 2 2 1 4 1 1 1
      ⟨[1, 1, 2, 2], .bf16⟩ ⟨[1, 1], .bf16⟩ (by decide) (by decide)
      (by decide) (by decide) (by decide),
   rfl, rfl,
   c6_missing_cache_behavior.2 c6wSt false false false c6wInpDecode rfl rfl⟩

/-- Witness for C2 at a concrete input: two blocks of one sequence, block 0
fully masked; removing it leaves the single live block. -/
theorem c2_masked_block_removal_witness :
    (∀ t : Fin 1, c2wBias 0 t = none) ∧
    flat_pa true false 10 1 1 c2wE c2wQuery c2wCache c2wCache c2wBl c2wBm
        c2wBias c2wScales c2wGroups 1
      = flat_pa true false 10 1 1 c2wE c2wQuery c2wCache c2wCache
        (fun j => c2wBl ((0 : Fin 2).succAbove j))
        (fun j => c2wBm ((0 : Fin 2).succAbove j))
        (fun j => c2wBias ((0 : Fin 2).succAbove j))
        (fun j => c2wScales ((0 : Fin 2).succAbove j))
        (fun j => c2wGroups ((0 : Fin 2).succAbove j)) 1 :=
  ⟨by decide,
    c2_masked_block_removal true false 10 1 1 c2wE c2wQuery c2wCache c2wCache
      c2wBl c2wBm c2wBias c2wScales c2wGroups 1 0 (by decide)⟩

/-- C7 counterexample: with ALiBi slopes configured, two successive prompt
forward calls with the same configuration construct two bias matrices — a
new matrix is built on every call, refuting "for every forward call after
the first ... no new bias matrix is constructed". -/
theorem c7_alibi_counterexample :
    (runForwardAlibi
      ⟨4, 64, 4, 1, some [1, 2, 3, 4], false, .decoder⟩
      [⟨true, true, 8⟩, ⟨true, true, 8⟩]).2.length = 2
    ∧ ¬ ((runForwardAlibi
      ⟨4, 64, 4, 1, some [1, 2, 3, 4], false, .decoder⟩
      [⟨true, true, 8⟩, ⟨true, true, 8⟩]).2.length ≤ 1) :=
  ⟨rfl, by decide⟩

/-- C7 (amended): the per-head ALiBi bias matrix is not cached — it is
recomputed by `_make_alibi_bias` on every eligible prompt forward call (the
implementation state has no bias field and is returned unchanged) — but the
construction is deterministic: over any number of calls with the same
slope/head configuration, every constructed matrix is the identical
`make_alibi_bias slopes num_kv_heads seq_len`. -/
theorem c7_alibi_recomputed_deterministic (st : ImplState) (slopes : List ℚ)
    (c : FwdCall) (n : ℕ) (hs : st.alibi_slopes = some slopes) :
    (runForwardAlibi st (List.replicate n c)).1 = st
    ∧ (runForwardAlibi st (List.replicate n c)).2
      = List.replicate
          (if c.is_prompt && c.block_list_none && !st.prefill_use_fusedsdpa
            then n else 0)
          (make_alibi_bias slopes st.num_kv_heads c.seq_len) := by
  induction n with
  | zero => simp [runForwardAlibi]
  | succ n ih =>
    by_cases hc : (c.is_prompt && c.block_list_none
        && !st.prefill_use_fusedsdpa) = true
    · simp only [List.replicate_succ, runForwardAlibi, forwardAlibiBuilt,
        hs, hc, if_true, ih.1, ih.2]
      simp [hc]
    · simp only [List.replicate_succ, runForwardAlibi, forwardAlibiBuilt,
        hs, if_neg hc, ih.1, ih.2]
      simp [hc]

/-- Witness for C7 (amended) at a concrete configuration: three eligible
calls yield exactly three identical matrices and leave the state unchanged. -/
theorem c7_alibi_recomputed_deterministic_witness :
    (⟨4, 64, 4, 1, some [1, 2, 3, 4], false, .decoder⟩ : ImplState).alibi_slopes
        = some [1, 2, 3, 4]
    ∧ ((runForwardAlibi ⟨4, 64, 4, 1, some [1, 2, 3, 4], false, .decoder⟩
          (List.replicate 3 ⟨true, true, 8⟩)).1
        = ⟨4, 64, 4, 1, some [1, 2, 3, 4], false, .decoder⟩
      ∧ (runForwardAlibi ⟨4, 64, 4, 1, some [1, 2, 3, 4], false, .decoder⟩
          (List.replicate 3 ⟨true, true, 8⟩)).2
        = List.replicate
            (if (⟨true, true, 8⟩ : FwdCall).is_prompt
                && (⟨true, true, 8⟩ : FwdCall).block_list_none
                && !(⟨4, 64, 4, 1, some [1, 2, 3, 4], false,
                    .decoder⟩ : ImplState).prefill_use_fusedsdpa
              then 3 else 0)
            (make_alibi_bias [1, 2, 3, 4] 4 8)) :=
  ⟨rfl, c7_alibi_recomputed_deterministic
    ⟨4, 64, 4, 1, some [1, 2, 3, 4], false, .decoder⟩ [1, 2, 3, 4]
    ⟨true, true, 8⟩ 3 rfl⟩

/-- C8: constructing `HPUAttentionImpl` with a head size outside the
supported set, or with ALiBi slopes while the fused-SDPA prefill flag is
enabled, yields an error from `__init__` — no implementation state is ever
produced, so the configuration error precedes any possible forward call. -/
theorem c8_init_rejects_bad_config (supported : List ℕ) (cfg : AttnConfig)
    (h : cfg.head_size ∉ supported
      ∨ (cfg.fsdpa_enabled = true ∧ cfg.alibi_slopes.isSome = true)) :
    (∃ e, HPUAttentionImpl_init supported cfg = .error e)
    ∧ ∀ s, HPUAttentionImpl_init supported cfg ≠ .ok s := by
  have herr : ∃ e, HPUAttentionImpl_init supported cfg = .error e := by
    unfold HPUAttentionImpl_init
    by_cases h1 : cfg.num_heads % (cfg.num_kv_heads.getD cfg.num_heads) ≠ 0
    · exact ⟨_, by rw [if_pos h1]⟩
    · rw [if_neg h1]
      by_cases h2 : cfg.fsdpa_enabled = true ∧ cfg.alibi_slopes.isSome = true
      · exact ⟨_, by rw [if_pos h2]⟩
      · rw [if_neg h2]
        cases h with
        | inl hh => exact ⟨_, by rw [if_pos hh]⟩
        | inr hh => exact absurd hh h2
  refine ⟨herr, fun s hok => ?_⟩
  obtain ⟨e, he⟩ := herr
  rw [he] at hok
  exact Except.noConfusion hok

/-- Witness for C8 at a concrete configuration: head size 100 is outside the
supported set `[64, 80, 96, 112, 128, 256]`. -/
theorem c8_init_rejects_bad_config_witness :
    ((⟨8, 100, some 8, none, none, false, .decoder⟩ : AttnConfig).head_size
        ∉ [64, 80, 96, 112, 128, 256]
      ∨ ((⟨8, 100, some 8, none, none, false,
          .decoder⟩ : AttnConfig).fsdpa_enabled = true
        ∧ (⟨8, 100, some 8, none, none, false,
            .decoder⟩ : AttnConfig).alibi_slopes.isSome = true))
    ∧ ((∃ e, HPUAttentionImpl_init [64, 80, 96, 112, 128, 256]
          ⟨8, 100, some 8, none, none, false, .decoder⟩ = .error e)
      ∧ ∀ s, HPUAttentionImpl_init [64, 80, 96, 112, 128, 256]
          ⟨8, 100, some 8, none, none, false, .decoder⟩ ≠ .ok s) :=
  ⟨by decide,
    c8_init_rejects_bad_config [64, 80, 96, 112, 128, 256]
      ⟨8, 100, some 8, none, none, false, .decoder⟩ (by decide)⟩

/-- C9: `forward` never mutates the `AttentionMetadata` buffers: for every
path (cache write present or absent, prompt with or without prefix
`block_list`, ALiBi on or off, fused kernel on or off, any decode
normalization, with or without the fp32 upcast), every metadata field buffer
— block_list, block_mapping, block_groups, block_scales, attn_bias,
seq_lens_tensor and the cross_* fields — holds the same value after the call
as before it, provided those buffers pre-exist and are distinct from the two
kv-cache buffers (the only pre-existing buffers `forward` writes).  The
prompt-ALiBi path in particular tiles the bias into a fresh buffer before
its in-place `add_`. -/
theorem c9_forward_no_metadata_mutation {V : Type} (vals : ℕ → V)
    (cachePresent isPrompt blockListPresent alibi fsdpa fp32 cpa cn : Bool)
    (kRef vRef : ℕ) (mr : MetaRefs) (s0 : Heap V)
    (hrefs : ∀ r ∈ mr.refs, r < s0.next ∧ r ≠ kRef ∧ r ≠ vRef) :
    ∀ r ∈ mr.refs,
      (forward_heap vals cachePresent isPrompt blockListPresent alibi fsdpa
        fp32 cpa cn kRef vRef s0).mem r = s0.mem r := by
  intro r hrm
  obtain ⟨h1, h2, h3⟩ := hrefs r hrm
  exact forward_heap_frame vals cachePresent isPrompt blockListPresent alibi
    fsdpa fp32 cpa cn kRef vRef s0 r h1 h2 h3

/-- Witness for C9 at a concrete run: the prompt-ALiBi path with a cache
write, metadata in buffers 0-10, caches in 11 and 12. -/
theorem c9_forward_no_metadata_mutation_witness :
    (∀ r ∈ (⟨0, 1, 2, 3, 4, 5, 6, 7, 8, 9, 10⟩ : MetaRefs).refs,
      r < 13 ∧ r ≠ 11 ∧ r ≠ 12)
    ∧ ∀ r ∈ (⟨0, 1, 2, 3, 4, 5, 6, 7, 8, 9, 10⟩ : MetaRefs).refs,
      (forward_heap (fun n => n) true true false true false false false false
        11 12 ⟨fun _ => 0, 13, 0⟩).mem r
        = (⟨fun _ => 0, 13, 0⟩ : Heap ℕ).mem r :=
  ⟨by decide,
    c9_forward_no_metadata_mutation (fun n => n) true true false true false
      false false false 11 12 ⟨0, 1, 2, 3, 4, 5, 6, 7, 8, 9, 10⟩
      ⟨fun _ => 0, 13, 0⟩ (by decide)⟩

end HpuAttn

namespace Llama

/-- C10: in the prompt-path split branch with `output_slice` false (the
branch guard takes `do_split` and `(seq_len*batch_size) % split_size == 0`
with `split_size = get_split_size seq_len batch_size orig`), splitting
`attn_output` into slices, applying `o_proj` to each slice and
concatenating equals, at every in-range `[batch, seq, hidden]` position and
in exact arithmetic, applying `o_proj` to the whole `attn_output` at once. -/
theorem c10_split_o_proj_equiv (W : ℕ → ℕ → ℚ) (bias : ℕ → ℚ)
    (q_size orig B S : ℕ) (x : ℕ → ℕ → ℕ → ℚ)
    (hdiv : (S * B) % get_split_size S B orig = 0)
    (b s o : ℕ) (hb : b < B) (hs : s < S) :
    attnOutputSplit W bias q_size (get_split_size S B orig) S x b s o
      = attnOutputNoSplit W bias q_size x b s o := by
  have hS : 0 < S := lt_of_le_of_lt (Nat.zero_le s) hs
  unfold attnOutputSplit viewBSH sliceProjCat groupTokens flattenTokens
    attnOutputNoSplit
  have hsplit : (b * S + s) / get_split_size S B orig
        * get_split_size S B orig
      + (b * S + s) % get_split_size S B orig = b * S + s := by
    rw [mul_comm]
    exact Nat.div_add_mod _ _
  rw [hsplit]
  have h1 : (b * S + s) / S = b := by
    rw [mul_comm, Nat.mul_add_div hS, Nat.div_eq_of_lt hs, add_zero]
  have h2 : (b * S + s) % S = s := by
    rw [mul_comm, Nat.mul_add_mod, Nat.mod_eq_of_lt hs]
  rw [h1, h2]

/-- Witness for C10 at a concrete input: `orig = 2 < 128` gives
`split_size = max ((2*1)/2) 1 = 1`, which divides the 2 tokens. -/
theorem c10_split_o_proj_equiv_witness :
    (2 * 1) % get_split_size 2 1 2 = 0 ∧ (0 : ℕ) < 1 ∧ (1 : ℕ) < 2 ∧
    attnOutputSplit (fun _ _ => (1 : ℚ)) (fun _ => 0) 1
        (get_split_size 2 1 2) 2 (fun _ _ _ => 1) 0 1 0
      = attnOutputNoSplit (fun _ _ => (1 : ℚ)) (fun _ => 0) 1
        (fun _ _ _ => 1) 0 1 0 :=
  ⟨by decide, by decide, by decide,
    c10_split_o_proj_equiv (fun _ _ => (1 : ℚ)) (fun _ => 0) 1 2 1 2
      (fun _ _ _ => 1) (by decide) 0 1 0 (by decide) (by decide)⟩

end Llama
